import Mathlib

/-!
Shallow embedding of the ChatLab agent executor (`src/agent.ts` of the
repository, provided as `src/unnamed/part_000`): the multi-round tool-calling
loop (`Agent.execute` / `Agent.executeStream`), the streaming tag parser, the
fallback tool-call extractor (`parseToolCallTags` / `hasToolCallTags` /
`extractThinkingContent`), the semantic retrieval pipeline
(`runSemanticPipeline` / `runAutoSemanticSearch`) and token-usage accounting
(`addUsage`).

Strings are modelled as `List Char` (JS strings over BMP code points, where
JS `.length` agrees with the code-point count).  The external collaborators
(model transport, tool executor, tool catalog, active configuration, abort
signal) are supplied by an oracle record; the abort signal is a function of a
logical clock that advances at each suspension point (model call, tool batch
dispatch, streaming-delta receipt).  Executions additionally produce a trace
of oracle interactions, so that claims about "every model call issued" and
"no call after cancellation" can be stated against the ground truth.
-/

abbrev Str := List Char

/-- Whitespace characters recognised by JS `String.prototype.trim` /
regex `\s` (the ASCII ones; the embedding's inputs stay in this range). -/
def isWsC (c : Char) : Bool :=
  c = ' ' || c = '\t' || c = '\n' || c = '\r' || c = '\x0b' || c = '\x0c'

/-- JS `String.prototype.trim`. -/
def trimS (s : Str) : Str :=
  ((s.dropWhile isWsC).reverse.dropWhile isWsC).reverse

/-- Lower-casing used for case-insensitive (`/i`) regex matching and
`toLowerCase`. -/
def lowerS (s : Str) : Str := s.map Char.toLower

/-- First index (from `i`) at which `pat` occurs in `s`: JS
`String.prototype.indexOf`. -/
def findSubAux (pat : Str) : Str → Nat → Option Nat
  | [], i => if pat = [] then some i else none
  | s@(_ :: rest), i => if pat.isPrefixOf s then some i else findSubAux pat rest (i + 1)

def findSub (pat s : Str) : Option Nat := findSubAux pat s 0

/-- Case-insensitive first occurrence (JS `/pat/i.test` + `indexOf` on the
lower-cased buffer). -/
def findSubCI (pat s : Str) : Option Nat := findSub (lowerS pat) (lowerS s)

def containsSub (pat s : Str) : Bool := (findSub pat s).isSome

def containsCI (pat s : Str) : Bool := (findSubCI pat s).isSome

/-- JS `String.prototype.slice(a, b)` for `a ≤ b` (the only form the source
uses). -/
def sliceS (s : Str) (a b : Nat) : Str := (s.drop a).take (b - a)

/-- JS `String.prototype.replace(pat, '')` with a plain-string pattern:
removes the first occurrence only. -/
def replaceFirst (pat : Str) (s : Str) : Str :=
  match findSub pat s with
  | none => s
  | some i => s.take i ++ s.drop (i + pat.length)

/-- JS `Array.prototype.findIndex`, as an `Option Nat`. -/
def findIndexQ (p : α → Bool) : List α → Option Nat
  | [] => none
  | x :: xs => if p x then some 0 else (findIndexQ p xs).map (· + 1)

def joinWith (sep : Str) : List Str → Str
  | [] => []
  | [x] => x
  | x :: xs => x ++ sep ++ joinWith sep xs

/-- Decimal rendering of an integer (used where JS interpolates a number into
a template string). -/
def intStr (n : Int) : Str := (toString n).toList

def natStr (n : Nat) : Str := (toString n).toList

-- ==================== JSON model ====================

/-- JSON values as consumed/produced by the runtime `JSON.parse` /
`JSON.stringify`.  Numbers are modelled as integers: no claim depends on
fractional numeric payloads. -/
inductive Js where
  | jnull : Js
  | jbool : Bool → Js
  | jnum : Int → Js
  | jstr : Str → Js
  | jarr : List Js → Js
  | jobj : List (Str × Js) → Js
deriving Repr

/-- JS truthiness of a parsed JSON value. -/
def jsTruthy : Js → Bool
  | .jnull => false
  | .jbool b => b
  | .jnum n => n ≠ 0
  | .jstr s => s ≠ []
  | .jarr _ => true
  | .jobj _ => true

/-- Property lookup `v.k` on a parsed JSON value (`undefined` elsewhere). -/
def getField (v : Js) (k : Str) : Option Js :=
  match v with
  | .jobj fs => (fs.find? (fun f => f.1 = k)).map (·.2)
  | _ => none

def lbraceC : Char := Char.ofNat 123
def rbraceC : Char := Char.ofNat 125

/-- JS string coercion (template interpolation / `String(x)`), simplified to
the shapes the source can feed it. -/
def jsCoerceStr (fuel : Nat) (v : Js) : Str :=
  match fuel with
  | 0 => []
  | fuel + 1 =>
    match v with
    | .jnull => "null".toList
    | .jbool true => "true".toList
    | .jbool false => "false".toList
    | .jnum n => intStr n
    | .jstr s => s
    | .jarr xs => joinWith ",".toList (xs.map (jsCoerceStr fuel))
    | .jobj _ => "[object Object]".toList

/-- String-literal escaping of `JSON.stringify`. -/
def jsonEscape (s : Str) : Str :=
  s.foldr (fun c acc =>
    if c = '"' then '\\' :: '"' :: acc
    else if c = '\\' then '\\' :: '\\' :: acc
    else if c = '\n' then '\\' :: 'n' :: acc
    else if c = '\r' then '\\' :: 'r' :: acc
    else if c = '\t' then '\\' :: 't' :: acc
    else c :: acc) []

mutual

/-- Structural size of a JSON value, used as recursion fuel for the
serializers. -/
def jsSize : Js → Nat
  | .jarr xs => jsSizeL xs + 1
  | .jobj fs => jsSizeF fs + 1
  | _ => 1

def jsSizeL : List Js → Nat
  | [] => 0
  | x :: xs => jsSize x + jsSizeL xs

def jsSizeF : List (Str × Js) → Nat
  | [] => 0
  | f :: fs => jsSize f.2 + jsSizeF fs

end

/-- Compact `JSON.stringify(v)` (no spacing), with explicit fuel so that the
definition reduces in the kernel. -/
def stringifyF (fuel : Nat) (v : Js) : Str :=
  match fuel with
  | 0 => []
  | fuel + 1 =>
    match v with
    | .jnull => "null".toList
    | .jbool true => "true".toList
    | .jbool false => "false".toList
    | .jnum n => intStr n
    | .jstr s => '"' :: jsonEscape s ++ ['"']
    | .jarr xs => '[' :: joinWith ",".toList (xs.map (stringifyF fuel)) ++ [']']
    | .jobj fs =>
      lbraceC :: joinWith ",".toList
        (fs.map (fun f => '"' :: jsonEscape f.1 ++ ['"', ':'] ++ stringifyF fuel f.2)) ++ [rbraceC]

def stringifyJs (v : Js) : Str := stringifyF (jsSize v) v

/-- `JSON.stringify(v, null, 2)` (pretty form, two-space indent), used for the
semantic-pipeline evidence block. -/
def stringifyPrettyF (fuel : Nat) (ind : Str) (v : Js) : Str :=
  match fuel with
  | 0 => []
  | fuel + 1 =>
    match v with
    | .jnull => "null".toList
    | .jbool true => "true".toList
    | .jbool false => "false".toList
    | .jnum n => intStr n
    | .jstr s => '"' :: jsonEscape s ++ ['"']
    | .jarr [] => "[]".toList
    | .jarr xs =>
      let ind2 := ind ++ "  ".toList
      '[' :: '\n' ::
        joinWith (",\n".toList) (xs.map (fun x => ind2 ++ stringifyPrettyF fuel ind2 x)) ++
        '\n' :: ind ++ [']']
    | .jobj [] => [lbraceC, rbraceC]
    | .jobj fs =>
      let ind2 := ind ++ "  ".toList
      lbraceC :: '\n' ::
        joinWith (",\n".toList)
          (fs.map (fun f => ind2 ++ '"' :: jsonEscape f.1 ++ ['"', ':', ' '] ++
            stringifyPrettyF fuel ind2 f.2)) ++
        '\n' :: ind ++ [rbraceC]

def stringifyPretty (v : Js) : Str := stringifyPrettyF (jsSize v) [] v

-- A small recursive-descent JSON parser modelling the runtime `JSON.parse`
-- (on success a value plus the unconsumed remainder; `none` = exception).
-- JSON numbers are restricted to (signed) integers; no claim feeds it
-- fractional numbers.

def skipWsJ (s : Str) : Str := s.dropWhile isWsC

def parseHex (c : Char) : Option Nat :=
  if '0' ≤ c ∧ c ≤ '9' then some (c.toNat - '0'.toNat)
  else if 'a' ≤ c ∧ c ≤ 'f' then some (c.toNat - 'a'.toNat + 10)
  else if 'A' ≤ c ∧ c ≤ 'F' then some (c.toNat - 'A'.toNat + 10)
  else none

def parseStrBody (fuel : Nat) (s : Str) : Option (Str × Str) :=
  match fuel with
  | 0 => none
  | fuel + 1 =>
    match s with
    | [] => none
    | '"' :: rest => some ([], rest)
    | '\\' :: e :: rest =>
      let cont (c : Char) (r : Str) : Option (Str × Str) :=
        (parseStrBody fuel r).map (fun p => (c :: p.1, p.2))
      if e = '"' then cont '"' rest
      else if e = '\\' then cont '\\' rest
      else if e = '/' then cont '/' rest
      else if e = 'n' then cont '\n' rest
      else if e = 't' then cont '\t' rest
      else if e = 'r' then cont '\r' rest
      else if e = 'b' then cont '\x08' rest
      else if e = 'f' then cont '\x0c' rest
      else if e = 'u' then
        match rest with
        | a :: b :: c :: d :: rest' =>
          match parseHex a, parseHex b, parseHex c, parseHex d with
          | some ha, some hb, some hc, some hd =>
            let n := ((ha * 16 + hb) * 16 + hc) * 16 + hd
            cont (Char.ofNat n) rest'
          | _, _, _, _ => none
        | _ => none
      else none
    | c :: rest => (parseStrBody fuel rest).map (fun p => (c :: p.1, p.2))

def digitsToNat : Str → Nat → Nat
  | [], acc => acc
  | c :: rest, acc => digitsToNat rest (acc * 10 + (c.toNat - '0'.toNat))

def isDigitC (c : Char) : Bool := '0' ≤ c ∧ c ≤ '9'

mutual

def parseJsVal (fuel : Nat) (s : Str) : Option (Js × Str) :=
  match fuel with
  | 0 => none
  | fuel + 1 =>
    match skipWsJ s with
    | [] => none
    | c :: rest =>
      if c = '"' then (parseStrBody (rest.length + 1) rest).map (fun p => (.jstr p.1, p.2))
      else if c = lbraceC then parseJsFields fuel (skipWsJ rest) true
      else if c = '[' then parseJsElems fuel (skipWsJ rest) true
      else if c = 't' then
        if "rue".toList.isPrefixOf rest then some (.jbool true, rest.drop 3) else none
      else if c = 'f' then
        if "alse".toList.isPrefixOf rest then some (.jbool false, rest.drop 4) else none
      else if c = 'n' then
        if "ull".toList.isPrefixOf rest then some (.jnull, rest.drop 3) else none
      else if c = '-' then
        let ds := rest.takeWhile isDigitC
        if ds = [] then none
        else some (.jnum (-(digitsToNat ds 0 : Int)), rest.drop ds.length)
      else if isDigitC c then
        let ds := (c :: rest).takeWhile isDigitC
        some (.jnum (digitsToNat ds 0 : Int), (c :: rest).drop ds.length)
      else none

def parseJsFields (fuel : Nat) (s : Str) (first : Bool) : Option (Js × Str) :=
  match fuel with
  | 0 => none
  | fuel + 1 =>
    match s with
    | c :: rest =>
      if c = rbraceC ∧ first then some (.jobj [], rest)
      else
        match skipWsJ (c :: rest) with
        | '"' :: kr =>
          match parseStrBody (kr.length + 1) kr with
          | none => none
          | some (k, afterK) =>
            match skipWsJ afterK with
            | ':' :: vs =>
              match parseJsVal fuel vs with
              | none => none
              | some (v, afterV) =>
                match skipWsJ afterV with
                | c2 :: r2 =>
                  if c2 = rbraceC then
                    some (.jobj [(k, v)], r2)
                  else if c2 = ',' then
                    match parseJsFields fuel (skipWsJ r2) false with
                    | some (.jobj fs, rem) => some (.jobj ((k, v) :: fs), rem)
                    | _ => none
                  else none
                | [] => none
            | _ => none
        | _ => none
    | [] => none

def parseJsElems (fuel : Nat) (s : Str) (first : Bool) : Option (Js × Str) :=
  match fuel with
  | 0 => none
  | fuel + 1 =>
    match s with
    | ']' :: rest => if first then some (.jarr [], rest) else none
    | _ =>
      match parseJsVal fuel s with
      | none => none
      | some (v, afterV) =>
        match skipWsJ afterV with
        | ']' :: r2 => some (.jarr [v], r2)
        | ',' :: r2 =>
          match parseJsElems fuel (skipWsJ r2) false with
          | some (.jarr xs, rem) => some (.jarr (v :: xs), rem)
          | _ => none
        | _ => none

end

/-- The runtime `JSON.parse`: the whole input (modulo surrounding whitespace)
must be one JSON value; `none` models a thrown `SyntaxError`. -/
def jsonParse (s : Str) : Option Js :=
  match parseJsVal (s.length + 1) s with
  | some (v, rest) => if skipWsJ rest = [] then some v else none
  | none => none

-- ==================== Agent data model ====================

/-- `TokenUsage` (src L85-89). -/
structure TokenUsage where
  promptTokens : Nat
  completionTokens : Nat
  totalTokens : Nat
deriving Repr, DecidableEq

def uzero : TokenUsage := ⟨0, 0, 0⟩

/-- The component-wise accumulation performed by `Agent.addUsage`
(src L352-354). -/
def uadd (a b : TokenUsage) : TokenUsage :=
  ⟨a.promptTokens + b.promptTokens, a.completionTokens + b.completionTokens,
    a.totalTokens + b.totalTokens⟩

instance : Add TokenUsage := ⟨uadd⟩

instance : Zero TokenUsage := ⟨uzero⟩

/-- Message roles of the transcript. -/
inductive Role where
  | system | user | assistant | tool
deriving Repr, DecidableEq

/-- Normalized tool call (`ToolCall` of `llm/types`, with the nested
`function` record flattened). -/
structure ToolCall where
  id : Str
  type : Str
  name : Str
  arguments : Str
deriving Repr, DecidableEq

/-- `ChatMessage`: role, text content, optional tool-call payloads
(assistant), optional correlation id (tool). -/
structure ChatMessage where
  role : Role
  content : Str
  tool_calls : Option (List ToolCall) := none
  tool_call_id : Option Str := none
deriving Repr, DecidableEq

/-- Result of executing one tool call (`{success, result | error}`); on
failure `result` is unused, on success `error` is unused. -/
structure ToolResult where
  success : Bool
  result : Js := .jnull
  error : Str := []
deriving Repr

/-- Blocking model-transport response (`chat`). -/
structure ChatResponse where
  content : Str
  tool_calls : Option (List ToolCall) := none
  finishReason : Str
  usage : Option TokenUsage := none
deriving Repr

/-- One delta event of the streaming transport (`chatStream`). -/
structure StreamChunk where
  content : Option Str := none
  tool_calls : Option (List ToolCall) := none
  usage : Option TokenUsage := none
  isFinished : Bool := false
  finishReason : Option Str := none
deriving Repr

/-- `AgentStreamChunk` (src L94-111), the events handed to the consumer
callback. -/
structure AgentStreamChunk where
  type : Str
  content : Option Str := none
  toolName : Option Str := none
  toolParams : Option Js := none
  toolResult : Option Js := none
  isFinished : Bool := false
  usage : Option TokenUsage := none
deriving Repr

/-- `AgentResult` (src L116-125). -/
structure AgentResult where
  content : Str
  toolsUsed : List Str
  toolRounds : Nat
  totalUsage : TokenUsage
deriving Repr, DecidableEq

-- ==================== Fallback extractor (src L15-68) ====================

def thinkOpenT : Str := "<think>".toList
def thinkCloseT : Str := "</think>".toList
def toolOpenT : Str := "<tool_call>".toList
def toolCloseT : Str := "</tool_call>".toList

/-- All matches of `/<think>([\s\S]*?)<\/think>/gi` over the original
content, as (full match, capture group) pairs, in `matchAll` order. -/
def thinkMatches (fuel : Nat) (s : Str) : List (Str × Str) :=
  match fuel with
  | 0 => []
  | fuel + 1 =>
    match findSubCI thinkOpenT s with
    | none => []
    | some i =>
      let afterOpen := s.drop (i + 7)
      match findSubCI thinkCloseT afterOpen with
      | none => []
      | some j =>
        (sliceS s i (i + 7 + j + 8), afterOpen.take j) ::
          thinkMatches fuel (s.drop (i + 7 + j + 8))

/-- `extractThinkingContent` (src L18-30): collects the trimmed capture of
every completed thinking span (joined by newlines) and removes each full
match from the content by a first-occurrence string replace, trimming the
results. -/
def extractThinkingContent (content : Str) : Str × Str :=
  let ms := thinkMatches (content.length + 1) content
  let thinking := ms.foldl (fun acc _m => acc ++ trimS _m.2 ++ ['\n']) []
  let clean := ms.foldl (fun acc _m => replaceFirst _m.1 acc) content
  (trimS thinking, trimS clean)

/-- All capture groups of `/<tool_call>\s*([\s\S]*?)\s*<\/tool_call>/gi`
(whitespace around the group is what `match[1].trim()` removes anyway, so
the raw inner text is returned and trimmed by the consumer). -/
def toolBlocks (fuel : Nat) (s : Str) : List Str :=
  match fuel with
  | 0 => []
  | fuel + 1 =>
    match findSubCI toolOpenT s with
    | none => []
    | some i =>
      let afterOpen := s.drop (i + 11)
      match findSubCI toolCloseT afterOpen with
      | none => []
      | some j => afterOpen.take j :: toolBlocks fuel (s.drop (i + 11 + j + 12))

/-- JS coercion of a truthy `parsed.name` field into the string stored at
`function.name` (the source stores the raw value; non-string names would be
string-coerced at use sites). -/
def nameStrOf (v : Js) : Str := jsCoerceStr (jsSize v) v

/-- Normalization of one parsed block into a `ToolCall` (body of the loop of
src L40-58): requires truthy `name` and `arguments` fields; `arguments` is
kept when already a string and `JSON.stringify`-ed otherwise.  The
`fallback-${randomUUID()}` id is modelled as `fallback-<index>`. -/
def fallbackCallOfBlock (idx : Nat) (inner : Str) : Option ToolCall :=
  match jsonParse (trimS inner) with
  | none => none
  | some parsed =>
    match getField parsed "name".toList, getField parsed "arguments".toList with
    | some nameV, some argsV =>
      if jsTruthy nameV ∧ jsTruthy argsV then
        some { id := "fallback-".toList ++ natStr idx
             , type := "function".toList
             , name := nameStrOf nameV
             , arguments := match argsV with
                            | .jstr s => s
                            | w => stringifyJs w }
      else none
    | _, _ => none

def enumFrom (i : Nat) : List α → List (Nat × α)
  | [] => []
  | x :: xs => (i, x) :: enumFrom (i + 1) xs

/-- `parseToolCallTags` (src L35-61): parses every embedded block,
skipping unparsable ones, and returns `none` when the collected list is
empty. -/
def parseToolCallTags (content : Str) : Option (List ToolCall) :=
  let toolCalls := (enumFrom 0 (toolBlocks (content.length + 1) content)).filterMap
    (fun p => fallbackCallOfBlock p.1 p.2)
  if toolCalls.length > 0 then some toolCalls else none

/-- `hasToolCallTags` (src L66-68): `/<tool_call>/i.test(content)`. -/
def hasToolCallTags (content : Str) : Bool := containsCI toolOpenT content

/-- `shouldAutoSemanticSearch` (src L516-543). -/
def shouldAutoSemanticSearch (userMessage : Str) : Bool :=
  let text := trimS userMessage
  if text = [] then false
  else if containsCI "get_recent_messages".toList text ||
          containsCI "search_messages".toList text ||
          containsCI "get_conversation_between".toList text ||
          containsCI "semantic_search_messages".toList text then false
  else
    let triggers := ["关系", "相处", "进展", "总结", "分析", "洞察", "怎么", "为什么",
      "发生了什么", "线索", "类似", "有没有聊过", "提到过"]
    if triggers.any (fun k => containsSub k.toList text) then true
    else if text.length ≥ 15 then true
    else false

-- ==================== Orchestrator state, oracle, trace ====================

/-- The `Agent` instance (src L312-344): configuration fixed at construction
plus the instance-lifetime mutable fields.  `systemPrompt` stands for the
output of `buildSystemPrompt` (localized prompt-text construction is an
external collaborator); `maxMessagesLimit`/`timeFilter` are the relevant
`ToolContext` fields. -/
structure Agent where
  maxToolRounds : Nat
  systemPrompt : Str
  historyMessages : List ChatMessage
  maxMessagesLimit : Option Int := none
  timeFilter : Option Js := none
  messages : List ChatMessage := []
  toolsUsed : List Str := []
  toolRounds : Nat := 0
  totalUsage : TokenUsage := uzero
deriving Repr

/-- The constructor (src L326-344): `maxToolRounds: config.maxToolRounds ?? 5`
and zeroed mutable state. -/
def mkAgent (cfgMaxToolRounds : Option Nat) (systemPrompt : Str)
    (historyMessages : List ChatMessage) (maxMessagesLimit : Option Int)
    (timeFilter : Option Js) : Agent :=
  { maxToolRounds := cfgMaxToolRounds.getD 5
  , systemPrompt := systemPrompt
  , historyMessages := historyMessages
  , maxMessagesLimit := maxMessagesLimit
  , timeFilter := timeFilter }

/-- Ground-truth record of one oracle interaction, stamped with the logical
clock at which it was issued. -/
inductive TraceEv where
  | model (t : Nat) (usage : Option TokenUsage)
  | streamBegin (t : Nat)
  | delta (t : Nat) (c : StreamChunk)
  | toolsEv (t : Nat) (calls : List ToolCall)
  | abortObs (t : Nat)
deriving Repr

/-- External collaborators of one execution: active configuration
(`getActiveConfig().embeddingModel`, raw), tool catalog (names), blocking
transport (`rewriteResp` answers the semantic-pipeline rewrite call, `none`
modelling a thrown/aborted call that its `try` absorbs; `chatResps i` answers
the round-`i` main-loop call; `finalResp` the forced budget-exhaustion call),
streaming transport (`streams i` is the delta sequence of the `i`-th
streaming call, `finalStream` of the forced final one), the tool-execution
collaborator (`exec`, one positionally aligned result per call, never
throwing), and the abort signal sampled at the logical clock (`sched`). -/
structure Oracle where
  embeddingModelRaw : Option Str := none
  toolNames : List Str := []
  rewriteResp : Option ChatResponse := none
  chatResps : Nat → ChatResponse := fun _ => { content := [], finishReason := "stop".toList }
  finalResp : ChatResponse := { content := [], finishReason := "stop".toList }
  streams : Nat → List StreamChunk := fun _ => []
  finalStream : List StreamChunk := []
  exec : ToolCall → ToolResult := fun _ => { success := false }
  sched : Nat → Bool := fun _ => false

/-- Per-execution mutable state: the instance fields the execution works on
(`messages`, `toolsUsed`, `toolRounds`, `totalUsage`), the logical clock
(advanced once per suspension point: blocking model call, tool-batch
dispatch, streaming-delta receipt), the count of streaming calls issued, the
interaction trace and the chunks handed to the consumer callback so far. -/
structure ES where
  messages : List ChatMessage
  toolsUsed : List Str
  toolRounds : Nat
  totalUsage : TokenUsage
  time : Nat := 0
  streamCalls : Nat := 0
  trace : List TraceEv := []
  emitted : List AgentStreamChunk := []

def tick (es : ES) : ES := { es with time := es.time + 1 }

def recEv (e : TraceEv) (es : ES) : ES := { es with trace := es.trace ++ [e] }

def pushMsg (m : ChatMessage) (es : ES) : ES := { es with messages := es.messages ++ [m] }

def emitC (c : AgentStreamChunk) (es : ES) : ES := { es with emitted := es.emitted ++ [c] }

def emitIf (stream : Bool) (c : AgentStreamChunk) (es : ES) : ES :=
  if stream then emitC c es else es

/-- `Agent.addUsage` (src L350-356): add an optional usage record to the
running total; missing record is a no-op. -/
def addUsageES (u : Option TokenUsage) (es : ES) : ES :=
  match u with
  | some uu => { es with totalUsage := es.totalUsage + uu }
  | none => es

def contentChunk (c : Str) : AgentStreamChunk := { type := "content".toList, content := some c }

def toolStartChunk (name : Str) (params : Option Js) : AgentStreamChunk :=
  { type := "tool_start".toList, toolName := some name, toolParams := params }

def toolResultChunk (name : Str) (r : ToolResult) : AgentStreamChunk :=
  { type := "tool_result".toList, toolName := some name
  , toolResult := some (if r.success then r.result else .jstr r.error) }

def doneChunk (u : TokenUsage) : AgentStreamChunk :=
  { type := "done".toList, isFinished := true, usage := some u }

def mkResult (content : Str) (es : ES) : AgentResult :=
  { content := content, toolsUsed := es.toolsUsed, toolRounds := es.toolRounds
  , totalUsage := es.totalUsage }

-- ==================== handleToolCalls (src L909-948) ====================

/-- The `tool`-role message appended per call result (src L942-946). -/
def toolMsgOf (tc : ToolCall) (r : ToolResult) : ChatMessage :=
  { role := .tool
  , content := if r.success then stringifyJs r.result else "错误: ".toList ++ r.error
  , tool_call_id := some tc.id }

/-- Per-result body of the loop of src L922-947: record the tool name, report
the result to the consumer, append the `tool` message. -/
def handleOneResult (stream : Bool) (es : ES) (p : ToolCall × ToolResult) : ES :=
  let es := { es with toolsUsed := es.toolsUsed ++ [p.1.name] }
  let es := emitIf stream (toolResultChunk p.1.name p.2) es
  pushMsg (toolMsgOf p.1 p.2) es

/-- `Agent.handleToolCalls` (src L909-948): append one assistant message
carrying the calls, dispatch the batch to the tool-execution collaborator
(one suspension point), then process the results in call-index order. -/
def handleToolCalls (o : Oracle) (stream : Bool) (tcs : List ToolCall) (es : ES) : ES :=
  let es := pushMsg { role := .assistant, content := [], tool_calls := some tcs } es
  let results := tcs.map o.exec
  let es := tick (recEv (.toolsEv es.time tcs) es)
  (tcs.zip results).foldl (handleOneResult stream) es

-- ==================== Semantic pipeline (src L358-511) ====================

/-- `Agent.getEmbeddingModel` (src L359-367): trimmed, non-empty active
`embeddingModel`, else `null` (a throwing config lookup also yields the
`none` of `embeddingModelRaw`). -/
def getEmbeddingModel (o : Oracle) : Option Str :=
  match o.embeddingModelRaw with
  | none => none
  | some s => let t := trimS s; if t = [] then none else some t

/-- Index of the last occurrence of a character (JS has no direct analogue
here; used to model the greedy `/\{[\s\S]*\}/` match: first `{` to last
`}`). -/
def lastIdxOf (c : Char) (s : Str) : Option Nat :=
  (findIndexQ (fun x => x = c) s.reverse).map (fun k => s.length - 1 - k)

structure RewritePlan where
  query : Str
  top_k : Int
  candidate_limit : Int
deriving Repr

/-- The rewrite-response processing of src L398-424: defaults
`(userMessage, 5, 200)`, overridden per-field from the first greedy
`{...}` JSON object found in the trimmed response text; any parse failure
keeps the defaults already in place. -/
def parsePlan (userMessage : Str) (content : Str) : RewritePlan :=
  let raw := trimS content
  let parsed : Option Js :=
    match findSub [lbraceC] raw, lastIdxOf rbraceC raw with
    | some i, some j => if i < j then jsonParse (sliceS raw i (j + 1)) else none
    | _, _ => none
  match parsed with
  | none => { query := userMessage, top_k := 5, candidate_limit := 200 }
  | some p =>
    let query := match getField p "query".toList with
      | some (.jstr s) => if trimS s ≠ [] then trimS s else userMessage
      | _ => userMessage
    let tk := match getField p "top_k".toList with
      | some (.jnum n) => n
      | _ => 5
    let cl := match getField p "candidate_limit".toList with
      | some (.jnum n) => n
      | _ => 200
    { query := query, top_k := tk, candidate_limit := cl }

/-- The evidence block of src L490-500. -/
def mkEvidenceBlock (query : Str) (tk cl : Int) (result : Js) : Str :=
  "【语义检索证据（semantic_search_messages）】\n检索query：".toList ++ query ++
  "\ntop_k：".toList ++ intStr tk ++ "，candidate_limit：".toList ++ intStr cl ++
  "\n\n检索结果（按相关度）：\n".toList ++ stringifyPretty result ++
  "\n\n回答要求：\n- 必须优先依据上述证据回答\n- 如果证据不足，说明“不足”并给出下一步应检索什么\n".toList

/-- `Agent.runSemanticPipeline` (src L375-511).  Steps: bail out when no
embedding model is configured; issue the rewrite call (its `try` absorbs a
transport failure, modelled by `rewriteResp = none`) and accumulate its
usage; clamp the plan; bail out when the semantic-search tool is missing
from the catalog; report, force-dispatch and transcribe exactly one
`semantic_search_messages` call; on truthy success splice the evidence
message just before the last `user` message.  Returns whether it ran. -/
def runSemanticPipelineM (o : Oracle) (a : Agent) (stream : Bool) (userMessage : Str)
    (es : ES) : Bool × ES :=
  match getEmbeddingModel o with
  | none => (false, es)
  | some _ =>
    let (plan, es) :=
      match o.rewriteResp with
      | none => (({ query := userMessage, top_k := 5, candidate_limit := 200 } : RewritePlan), es)
      | some resp =>
        let es := addUsageES resp.usage (tick (recEv (.model es.time resp.usage) es))
        (parsePlan userMessage resp.content, es)
    -- clamp (src L430-434)
    let tk := max 1 (min 50 plan.top_k)
    let cl0 := max 20 (min 500 plan.candidate_limit)
    let cl := match a.maxMessagesLimit with
      | some l => if l ≠ 0 then min cl0 l else cl0
      | none => cl0
    if "semantic_search_messages".toList ∈ o.toolNames then
      let paramsJs : Js := .jobj [("query".toList, .jstr plan.query),
        ("top_k".toList, .jnum tk), ("candidate_limit".toList, .jnum cl)]
      let es := emitIf stream (toolStartChunk "semantic_search_messages".toList (some paramsJs)) es
      let forced : ToolCall :=
        { id := "semantic-uuid".toList, type := "function".toList
        , name := "semantic_search_messages".toList, arguments := stringifyJs paramsJs }
      let first := o.exec forced
      let es := tick (recEv (.toolsEv es.time [forced]) es)
      let es := emitIf stream (toolResultChunk "semantic_search_messages".toList first) es
      let es := pushMsg { role := .assistant, content := [], tool_calls := some [forced] } es
      let tmsg : ChatMessage :=
        { role := .tool
        , content := if first.success then stringifyJs first.result
                     else "错误: ".toList ++ first.error
        , tool_call_id := some forced.id }
      let es := pushMsg tmsg es
      let es := { es with toolsUsed := es.toolsUsed ++ ["semantic_search_messages".toList] }
      let es :=
        if first.success ∧ jsTruthy first.result then
          let evidence := mkEvidenceBlock plan.query tk cl first.result
          let lastUserIdx := findIndexQ (fun m => decide (m.role = Role.user)) es.messages.reverse
          let insertIdx := match lastUserIdx with
            | none => es.messages.length
            | some k => es.messages.length - 1 - k
          { es with messages := es.messages.take insertIdx ++
              ({ role := .system, content := evidence } : ChatMessage) :: es.messages.drop insertIdx }
        else es
      (true, es)
    else (false, es)

-- ==================== Legacy auto search (src L546-587) ====================

/-- The forced call of src L554-567 (`auto-${randomUUID()}` id modelled as a
fixed fresh name). -/
def autoCall (userMessage : Str) : ToolCall :=
  { id := "auto-uuid".toList, type := "function".toList
  , name := "semantic_search_messages".toList
  , arguments := stringifyJs (.jobj [("query".toList, .jstr userMessage),
      ("top_k".toList, .jnum 8), ("candidate_limit".toList, .jnum 200)]) }

/-- One line of the evidence list (src L577-580).  `toFixed(1)` of the 0-1
float score is modelled on the integer-percentage value. -/
def autoLine (p : Nat × Js) : Str :=
  let s := match getField p.2 "score".toList with
    | some (.jnum n) => intStr (n * 100) ++ ".0%".toList
    | _ => []
  let msg := match getField p.2 "message".toList with
    | some v => if jsTruthy v then jsCoerceStr (jsSize v) v else []
    | none => []
  trimS (natStr (p.1 + 1) ++ ". ".toList ++ s ++ " ".toList ++ msg)

/-- The evidence string of src L582. -/
def autoEvidence (userMessage : Str) (data : Js) (items : List Js) : Str :=
  let q := match getField data "query".toList with
    | some v => if jsTruthy v then jsCoerceStr (jsSize v) v else userMessage
    | none => userMessage
  "【语义检索结果】\n查询：".toList ++ q ++ "\n".toList ++
  joinWith "\n".toList ((enumFrom 0 (items.take 8)).map autoLine) ++
  "\n（以上为系统自动从聊天记录中检索到的高相关消息，请基于这些证据回答。）".toList

/-- `Agent.runAutoSemanticSearch` (src L548-587): force one
`semantic_search_messages` call; `none` unless the tool exists, the call
succeeds and `result.results` is a non-empty array. -/
def runAutoSemanticSearchM (o : Oracle) (userMessage : Str) (es : ES) : Option Str × ES :=
  if "semantic_search_messages".toList ∈ o.toolNames then
    let c := autoCall userMessage
    let r0 := o.exec c
    let es := tick (recEv (.toolsEv es.time [c]) es)
    if r0.success then
      match getField r0.result "results".toList with
      | some (.jarr []) => (none, es)
      | some (.jarr items) => (some (autoEvidence userMessage r0.result items), es)
      | _ => (none, es)
    else (none, es)
  else (none, es)

-- ==================== execute (src L592-683) ====================

/-- The synthetic instruction appended on round-budget exhaustion
(src L672/L880). -/
def finalNudgeMsg : ChatMessage :=
  { role := .user, content := "请根据已获取的信息给出回答，不要再调用工具。".toList }

/-- The fresh per-execution state of src L599-607 / L696-703: transcript =
[system prompt, prior history..., user message], counters reset -- note
`totalUsage` is NOT among the fields the source resets. -/
def initES (a : Agent) (userMessage : Str) : ES :=
  { messages := ({ role := .system, content := a.systemPrompt } : ChatMessage) ::
      a.historyMessages ++ [{ role := .user, content := userMessage }]
  , toolsUsed := [], toolRounds := 0, totalUsage := a.totalUsage }

/-- The pre-loop phase shared by both entry points (src L599-619 / L696-717):
reset the transcript and counters, run the semantic pipeline, and fall back
to the legacy auto search (evidence spliced just before the trailing user
message) when the pipeline did not run. -/
def preLoop (o : Oracle) (a : Agent) (stream : Bool) (userMessage : Str) : ES :=
  let (ran, es) := runSemanticPipelineM o a stream userMessage (initES a userMessage)
  if !ran && shouldAutoSemanticSearch userMessage then
    let (ev, es2) := runAutoSemanticSearchM o userMessage es
    match ev with
    | some evidence =>
      { es2 with messages := es2.messages.take (es2.messages.length - 1) ++
          ({ role := .system, content := evidence } : ChatMessage) ::
          es2.messages.drop (es2.messages.length - 1) }
    | none => es2
  else es

/-- The round loop of `Agent.execute` (src L621-682), by recursion on the
remaining budget (`remaining = maxToolRounds - toolRounds`; the loop
condition `toolRounds < maxToolRounds` is `remaining > 0`).  The `0` case is
the budget-exhaustion tail (src L671-682), which issues the forced final
model call without any cancellation check. -/
def execLoop (o : Oracle) : Nat → ES → AgentResult × ES
  | 0, es =>
    let es := pushMsg finalNudgeMsg es
    let resp := o.finalResp
    let es := addUsageES resp.usage (tick (recEv (.model es.time resp.usage) es))
    (mkResult resp.content es, es)
  | remaining + 1, es =>
    if o.sched es.time then
      let es := recEv (.abortObs es.time) es
      (mkResult [] es, es)
    else
      let resp := o.chatResps es.toolRounds
      let es := addUsageES resp.usage (tick (recEv (.model es.time resp.usage) es))
      let outcome : Str ⊕ List ToolCall :=
        if resp.finishReason ≠ "tool_calls".toList ∨ resp.tool_calls = none then
          if hasToolCallTags resp.content then
            match parseToolCallTags resp.content with
            | some l => Sum.inr l
            | none => Sum.inl (extractThinkingContent resp.content).2
          else Sum.inl resp.content
        else Sum.inr (resp.tool_calls.getD [])
      match outcome with
      | Sum.inl content => (mkResult content es, es)
      | Sum.inr tcs =>
        let es := handleToolCalls o false tcs es
        let es := { es with toolRounds := es.toolRounds + 1 }
        execLoop o remaining es

/-- `Agent.execute` (src L592-683): returns the result, the post-execution
instance state, and the interaction trace. -/
def executeModel (o : Oracle) (a : Agent) (userMessage : Str) :
    AgentResult × Agent × List TraceEv :=
  if o.sched 0 then
    ({ content := [], toolsUsed := [], toolRounds := 0, totalUsage := a.totalUsage }, a,
      [.abortObs 0])
  else
    let es := preLoop o a false userMessage
    let (r, es) := execLoop o a.maxToolRounds es
    let a2 : Agent :=
      { a with
          messages := es.messages, toolsUsed := es.toolsUsed,
          toolRounds := es.toolRounds, totalUsage := es.totalUsage }
    (r, a2, es.trace)

-- ==================== executeStream (src L688-904) ====================

/-- Per-model-call state of the streaming tag parser (locals of the round
body, src L731-735). -/
structure RoundSt where
  accumulated : Str := []
  displayed : Str := []
  toolCalls : Option (List ToolCall) := none
  isBufferingToolCall : Bool := false
  isBufferingThink : Bool := false
deriving Repr

/-- The content-delta processing of src L752-794: append the delta to the
buffer, then (1) on an opening thinking marker anywhere in the buffer
(tested case-insensitively) flush the text before it and enter the thinking
state, (2) on a closing marker advance `displayed` past it and leave the
state, (3) while thinking forward nothing, (4) on an opening tool-call
marker flush the text before it (`indexOf` here is case-sensitive) and
start buffering, (5) otherwise forward the unshown suffix.  Returns the new
state and the forwarded content pieces in order. -/
def processContent (rst : RoundSt) (deltaS : Str) : RoundSt × List Str :=
  let acc := rst.accumulated ++ deltaS
  let st0 := rst.isBufferingThink
  let (th1, disp1, out1) :=
    if !st0 && containsCI thinkOpenT acc then
      let thinkStart := (findSubCI thinkOpenT acc).getD 0
      if thinkStart > rst.displayed.length then
        let nc := sliceS acc rst.displayed.length thinkStart
        if nc ≠ [] then (true, acc.take thinkStart, [nc])
        else (true, rst.displayed, ([] : List Str))
      else (true, rst.displayed, [])
    else (st0, rst.displayed, [])
  let (th2, disp2) :=
    if th1 && containsCI thinkCloseT acc then
      (false, acc.take ((findSubCI thinkCloseT acc).getD 0 + 8))
    else (th1, disp1)
  if th2 then
    ({ rst with accumulated := acc, displayed := disp2, isBufferingThink := true }, out1)
  else if !rst.isBufferingToolCall then
    if containsCI toolOpenT acc then
      let (dispT, outT) :=
        match findSub toolOpenT acc with
        | some ts =>
          if ts > disp2.length then
            let nc := sliceS acc disp2.length ts
            if nc ≠ [] then (acc.take ts, [nc]) else (disp2, ([] : List Str))
          else (disp2, [])
        | none => (disp2, [])
      let rst2 : RoundSt :=
        { rst with
            accumulated := acc, displayed := dispT, isBufferingToolCall := true,
            isBufferingThink := false }
      (rst2, out1 ++ outT)
    else
      let nc := acc.drop disp2.length
      if nc ≠ [] then
        ({ rst with accumulated := acc, displayed := acc, isBufferingThink := false },
          out1 ++ [nc])
      else
        ({ rst with accumulated := acc, displayed := disp2, isBufferingThink := false }, out1)
  else
    ({ rst with accumulated := acc, displayed := disp2, isBufferingThink := false }, out1)

/-- `content.replace(/<tool_call>[\s\S]*?<\/tool_call>/gi, '')` (src L811):
global removal of every completed tool-call span. -/
def removeToolSpans (fuel : Nat) (s : Str) : Str :=
  match fuel with
  | 0 => s
  | fuel + 1 =>
    match findSubCI toolOpenT s with
    | none => s
    | some i =>
      match findSubCI toolCloseT (s.drop (i + 11)) with
      | none => s
      | some j => s.take i ++ removeToolSpans fuel (s.drop (i + 11 + j + 12))

/-- Outcome of consuming one round's delta sequence: an early return out of
`executeStream`, or the stream ran dry and the loop proceeds to tool
dispatch. -/
inductive RoundRes where
  | earlyRet (r : AgentResult) (es : ES)
  | streamDone (rst : RoundSt) (es : ES)

/-- Outcome of one iteration of the `for await` body: an early return out of
`executeStream`, or continue with the next delta. -/
inductive ChunkStep where
  | ret (r : AgentResult) (es : ES)
  | next (rst : RoundSt) (es : ES)

/-- The guarded content processing of src L752-794 (`if (chunk.content)`),
forwarding the produced pieces to the consumer. -/
def contentStep (c : StreamChunk) (rst : RoundSt) (es : ES) : RoundSt × ES :=
  match c.content with
  | some d =>
    if d ≠ [] then
      let pr := processContent rst d
      (pr.1, pr.2.foldl (fun es2 nc => emitC (contentChunk nc) es2) es)
    else (rst, es)
  | none => (rst, es)

/-- One iteration of the `for await` body over a round's deltas
(src L742-837): cancellation check on the receipt (src L742-750), content
processing, `tool_calls` snapshot (src L796-798), usage accumulation
(src L800-802), and the completion handling (src L804-837) with its
fallback extraction. -/
def processChunk (o : Oracle) (finalContent : Str) (c : StreamChunk) (rst : RoundSt)
    (es : ES) : ChunkStep :=
  let es := tick es
  if o.sched es.time then
    let es := recEv (.abortObs es.time) es
    let es := emitC (doneChunk es.totalUsage) es
    .ret (mkResult (finalContent ++ rst.accumulated) es) es
  else
    let es := recEv (.delta es.time c) es
    let pr := contentStep c rst es
    let rst := pr.1
    let es := pr.2
    let rst := match c.tool_calls with
      | some tcs => { rst with toolCalls := some tcs }
      | none => rst
    let es := addUsageES c.usage es
    if c.isFinished then
      if c.finishReason ≠ some "tool_calls".toList ∨ rst.toolCalls = none then
        if hasToolCallTags rst.accumulated then
          match parseToolCallTags rst.accumulated with
          | some l =>
            .next { rst with
              toolCalls := some l,
              accumulated := trimS (removeToolSpans (rst.accumulated.length + 1)
                (extractThinkingContent rst.accumulated).2) } es
          | none =>
            let clean := (extractThinkingContent rst.accumulated).2
            let remaining := clean.drop rst.displayed.length
            let es := if remaining ≠ [] then emitC (contentChunk remaining) es else es
            let es := emitC (doneChunk es.totalUsage) es
            .ret (mkResult clean es) es
        else
          let clean := (extractThinkingContent rst.accumulated).2
          let es := emitC (doneChunk es.totalUsage) es
          .ret (mkResult clean es) es
      else .next rst es
    else .next rst es

/-- The `for await` loop over one round's deltas (src L737-838). -/
def runChunks (o : Oracle) (finalContent : Str) :
    List StreamChunk → RoundSt → ES → RoundRes
  | [], rst, es => .streamDone rst es
  | c :: rest, rst, es =>
    match processChunk o finalContent c rst es with
    | .ret r es2 => .earlyRet r es2
    | .next rst2 es2 => runChunks o finalContent rest rst2 es2

/-- JS `{...obj, k: v}`: replace the value in place when the key exists,
append otherwise (spreading a non-object yields an empty base object). -/
def setFieldJ (v : Js) (k : Str) (nv : Js) : Js :=
  match v with
  | .jobj fs =>
    if fs.any (fun f => f.1 = k) then .jobj (fs.map (fun f => if f.1 = k then (k, nv) else f))
    else .jobj (fs ++ [(k, nv)])
  | _ => .jobj [(k, nv)]

/-- The `tool_start` parameter computation of src L842-859: parse the call's
arguments (`'{}'` when empty; parse failure yields `undefined`), then
force-inject the message-count cap and the time filter for the applicable
tools. -/
def paramsOf (a : Agent) (tc : ToolCall) : Option Js :=
  match jsonParse (if tc.arguments = [] then [lbraceC, rbraceC] else tc.arguments) with
  | none => none
  | some p =>
    let toolsWithLimit := ["search_messages".toList, "get_recent_messages".toList,
      "get_conversation_between".toList]
    let p := match a.maxMessagesLimit with
      | some l => if l ≠ 0 ∧ tc.name ∈ toolsWithLimit then setFieldJ p "limit".toList (.jnum l)
                  else p
      | none => p
    let p := match a.timeFilter with
      | some tf =>
        if jsTruthy tf ∧ (tc.name = "search_messages".toList ∨
            tc.name = "get_recent_messages".toList)
        then setFieldJ p "_timeFilter".toList tf else p
      | none => p
    some p

/-- The forced final stream of src L882-896 (budget exhaustion): per delta a
cancellation check (`break`), content forwarding into `finalContent`, usage
accumulation, and a `done` report on the completion flag. -/
def runFinalChunks (o : Oracle) : List StreamChunk → Str → ES → Str × ES
  | [], fc, es => (fc, es)
  | c :: rest, fc, es =>
    let es := tick es
    if o.sched es.time then
      let es := recEv (.abortObs es.time) es
      (fc, emitC (doneChunk es.totalUsage) es)
    else
      let es := recEv (.delta es.time c) es
      let (fc, es) :=
        match c.content with
        | some d => if d ≠ [] then (fc ++ d, emitC (contentChunk d) es) else (fc, es)
        | none => (fc, es)
      let es := addUsageES c.usage es
      let es := if c.isFinished then emitC (doneChunk es.totalUsage) es else es
      runFinalChunks o rest fc es

/-- The `while` loop of `Agent.executeStream` (src L720-903), by fuel on the
number of iterations (a stream that neither finishes nor produces tool
calls repeats a round without progress, so iterations are not bounded by
the round budget alone; `none` = fuel exhausted).  The `else` branch is the
budget-exhaustion tail (src L868-903) with its cancellation check. -/
def streamRoundLoop (o : Oracle) (a : Agent) : Nat → Str → ES → Option (AgentResult × ES)
  | 0, _, _ => none
  | fuel + 1, finalContent, es =>
    if es.toolRounds < a.maxToolRounds then
      if o.sched es.time then
        let es := recEv (.abortObs es.time) es
        let es := emitC (doneChunk es.totalUsage) es
        some (mkResult finalContent es, es)
      else
        let chunks := o.streams es.streamCalls
        let es := recEv (.streamBegin es.time) { es with streamCalls := es.streamCalls + 1 }
        match runChunks o finalContent chunks {} es with
        | .earlyRet r es2 => some (r, es2)
        | .streamDone rst es2 =>
          match rst.toolCalls with
          | some (tc :: tcs) =>
            let calls := tc :: tcs
            let es3 := calls.foldl
              (fun es4 tc2 => emitC (toolStartChunk tc2.name (paramsOf a tc2)) es4) es2
            let es3 := handleToolCalls o true calls es3
            let es3 := { es3 with toolRounds := es3.toolRounds + 1 }
            streamRoundLoop o a fuel finalContent es3
          | _ => streamRoundLoop o a fuel finalContent es2
    else
      if o.sched es.time then
        let es := recEv (.abortObs es.time) es
        let es := emitC (doneChunk es.totalUsage) es
        some (mkResult finalContent es, es)
      else
        let es := pushMsg finalNudgeMsg es
        let es := recEv (.streamBegin es.time) { es with streamCalls := es.streamCalls + 1 }
        let pr := runFinalChunks o o.finalStream finalContent es
        some (mkResult pr.1 pr.2, pr.2)

/-- Everything `executeStream` produces: the result, the post-execution
instance state, the interaction trace, and the chunk sequence handed to the
consumer callback. -/
structure StreamOut where
  result : AgentResult
  agent : Agent
  trace : List TraceEv
  emitted : List AgentStreamChunk

/-- `Agent.executeStream` (src L688-904). -/
def executeStreamModel (o : Oracle) (a : Agent) (userMessage : Str) (fuel : Nat) :
    Option StreamOut :=
  if o.sched 0 then
    some { result := { content := [], toolsUsed := [], toolRounds := 0
                     , totalUsage := a.totalUsage }
         , agent := a, trace := [.abortObs 0], emitted := [doneChunk a.totalUsage] }
  else
    let es := preLoop o a true userMessage
    match streamRoundLoop o a fuel [] es with
    | none => none
    | some (r, es2) =>
      let a2 : Agent :=
        { a with
            messages := es2.messages, toolsUsed := es2.toolsUsed,
            toolRounds := es2.toolRounds, totalUsage := es2.totalUsage }
      some { result := r, agent := a2, trace := es2.trace, emitted := es2.emitted }

-- ==================== Trace and chunk observations ====================

/-- Usage delivered by one trace event: the response usage of a blocking
call, the usage snapshot of a consumed delta, zero elsewhere. -/
def evUsage : TraceEv → TokenUsage
  | .model _ u => u.getD uzero
  | .delta _ c => c.usage.getD uzero
  | _ => uzero

instance : AddCancelCommMonoid TokenUsage where
  add := uadd
  zero := uzero
  add_assoc a b c := by
    show uadd (uadd a b) c = uadd a (uadd b c)
    simp only [uadd, TokenUsage.mk.injEq]
    omega
  zero_add a := by
    show uadd uzero a = a
    cases a
    simp only [uadd, uzero, TokenUsage.mk.injEq]
    omega
  add_zero a := by
    show uadd a uzero = a
    cases a
    simp only [uadd, uzero, TokenUsage.mk.injEq]
    omega
  add_comm a b := by
    show uadd a b = uadd b a
    simp only [uadd, TokenUsage.mk.injEq]
    omega
  nsmul := nsmulRec
  add_left_cancel a b c h := by
    have h2 : uadd a b = uadd a c := h
    cases a; cases b; cases c
    simp only [uadd, TokenUsage.mk.injEq] at h2 ⊢
    omega

/-- Sum of the usage delivered across a trace: the ground truth that
`totalUsage` is audited against (a missing usage record contributes zero). -/
def traceUsage (l : List TraceEv) : TokenUsage := (l.map evUsage).sum

/-- Model-transport or tool-execution calls (delta receipts and abort
observations are not calls). -/
def isCallEv : TraceEv → Bool
  | .model _ _ => true
  | .streamBegin _ => true
  | .toolsEv _ _ => true
  | _ => false

def isAbortEv : TraceEv → Bool
  | .abortObs _ => true
  | _ => false

def noAbortEv (l : List TraceEv) : Bool := l.all (fun e => !isAbortEv e)

/-- No model or tool call is issued after an observed cancellation. -/
def cleanAfter : List TraceEv → Bool
  | [] => true
  | .abortObs _ :: rest => rest.all (fun e => !isCallEv e)
  | _ :: rest => cleanAfter rest

/-- Every model/tool call in the trace was issued at an instant where the
abort signal was not yet raised. -/
def callOkB (sched : Nat → Bool) : TraceEv → Bool
  | .model t _ => !sched t
  | .streamBegin t => !sched t
  | .toolsEv t _ => !sched t
  | _ => true

def allCallsBeforeAbort (sched : Nat → Bool) (l : List TraceEv) : Bool :=
  l.all (callOkB sched)

/-- Concatenation of all `content` chunks handed to the consumer, in order. -/
def contentConcat (l : List AgentStreamChunk) : Str :=
  l.foldl (fun acc c => if c.type = "content".toList then acc ++ c.content.getD [] else acc) []

def isDoneChunk (c : AgentStreamChunk) : Bool := c.type = "done".toList

def noDoneC (l : List AgentStreamChunk) : Bool := l.all (fun c => !isDoneChunk c)

/-- The streaming transport contract: the delta sequence terminates right
after its completion event. -/
def finishTerminal : List StreamChunk → Bool
  | [] => true
  | c :: rest => if c.isFinished then rest.isEmpty else finishTerminal rest

-- ==================== Concrete fixtures for the claim checks ====================

/-- A default agent: no explicit round budget (so 5), empty history. -/
def agDefault : Agent := mkAgent none "sys".toList [] none none

-- C3: one streaming call whose buffer holds a completed thinking span, with
-- visible text arriving in two deltas.
def c3Chunk1 : StreamChunk := { content := some "<think>a</think>X".toList }
def c3Chunk2 : StreamChunk := { content := some "Y".toList }
def c3Chunk3 : StreamChunk := { isFinished := true, finishReason := some "stop".toList }
def c3Oracle : Oracle := { streams := fun _ => [c3Chunk1, c3Chunk2, c3Chunk3] }
def c3Run : Option StreamOut := executeStreamModel c3Oracle agDefault "hi".toList 10
def c3Emitted : List AgentStreamChunk := ((c3Run.map (·.emitted)).getD [])
def c3Content : Str := ((c3Run.map (·.result.content)).getD [])

-- C4: non-streaming reply carrying a thinking span and no tool markup.
def c4Reply : Str := "<think>reasoning</think>Here is the answer.".toList
def c4Resp : ChatResponse := { content := c4Reply, finishReason := "stop".toList }
def c4Oracle : Oracle := { chatResps := fun _ => c4Resp }
def c4Run : AgentResult × Agent × List TraceEv := executeModel c4Oracle agDefault "hi".toList

-- C5: every model call reports usage (1,2,3); two consecutive `execute`
-- calls on the same instance.
def c5Resp : ChatResponse :=
  { content := "ok".toList, finishReason := "stop".toList, usage := some ⟨1, 2, 3⟩ }
def c5Oracle : Oracle := { chatResps := fun _ => c5Resp }
def c5Run1 : AgentResult × Agent × List TraceEv := executeModel c5Oracle agDefault "hi".toList
def c5Run2 : AgentResult × Agent × List TraceEv := executeModel c5Oracle c5Run1.2.1 "hi".toList

-- C7: budget 1; the single round returns a native tool call, the abort
-- signal rises (monotonically) at instant 2 - during the tool dispatch, so
-- before the forced final model call of the exhaustion path.
def c7Agent : Agent := mkAgent (some 1) "sys".toList [] none none
def c7ToolCall : ToolCall :=
  { id := "id1".toList, type := "function".toList
  , name := "get_recent_messages".toList, arguments := [] }
def c7Resp : ChatResponse :=
  { content := [], finishReason := "tool_calls".toList
  , tool_calls := some [c7ToolCall], usage := some ⟨1, 1, 2⟩ }
def c7Final : ChatResponse :=
  { content := "final".toList, finishReason := "stop".toList, usage := some ⟨5, 5, 10⟩ }
def execAlwaysOk : ToolCall → ToolResult :=
  fun _ => { success := true, result := .jstr "r".toList }
def c7Oracle : Oracle :=
  { chatResps := fun _ => c7Resp, finalResp := c7Final, exec := execAlwaysOk
  , sched := fun t => decide (2 ≤ t) }
def c7Run : AgentResult × Agent × List TraceEv := executeModel c7Oracle c7Agent "hi".toList

-- C8: markup absent vs markup present but unparsable.
def c8NoMarkup : Str := "no markup here".toList
def c8Garbage : Str := "<tool_call>not valid json</tool_call>".toList

-- A streaming oracle that terminates within the budget, used by witnesses:
-- round 0 ends in a native tool call, round 1 answers.
def wChunkTool : StreamChunk :=
  { tool_calls := some [c7ToolCall], isFinished := true
  , finishReason := some "tool_calls".toList, usage := some ⟨1, 0, 1⟩ }
def wChunkAns : StreamChunk :=
  { content := some "ans".toList, isFinished := true
  , finishReason := some "stop".toList, usage := some ⟨2, 0, 2⟩ }
def wOracle : Oracle :=
  { streams := fun i => if i = 0 then [wChunkTool] else [wChunkAns]
  , exec := execAlwaysOk }
def w2Oracle : Oracle :=
  { streams := fun i => if i = 0 then [wChunkTool] else [wChunkAns]
  , exec := execAlwaysOk }

-- Pipeline fixtures (C6 / C9 / C10 witnesses).
def semOkResult : Js := .jobj [("results".toList, .jarr [.jstr "x".toList])]
def execSemOk : ToolCall → ToolResult := fun _ => { success := true, result := semOkResult }
def pipeOracle : Oracle :=
  { embeddingModelRaw := some "bge".toList
  , toolNames := ["semantic_search_messages".toList]
  , rewriteResp := none, exec := execSemOk }
def pipe2Oracle : Oracle :=
  { embeddingModelRaw := some "bge".toList
  , toolNames := ["semantic_search_messages".toList]
  , rewriteResp := none, exec := execSemOk }
def sysMsgW : ChatMessage := { role := .system, content := "sys".toList }
def userMsgW : ChatMessage := { role := .user, content := "q".toList }
def esW : ES :=
  { messages := [sysMsgW, userMsgW], toolsUsed := [], toolRounds := 0, totalUsage := uzero }
def es9W : ES :=
  { messages := [sysMsgW, userMsgW], toolsUsed := [], toolRounds := 0, totalUsage := uzero }

def autoOkResult : Js :=
  .jobj [("results".toList, .jarr
    [.jobj [("score".toList, .jnum 55), ("message".toList, .jstr "hello msg".toList)]])]
def execAutoOk : ToolCall → ToolResult := fun _ => { success := true, result := autoOkResult }
def autoOracle : Oracle :=
  { toolNames := ["semantic_search_messages".toList], exec := execAutoOk }
def c10Msg : Str := "我们最近关系怎么样".toList

-- Extra outputs for the claim witnesses (one per claim, fixtures shared).
def dummyOut : StreamOut :=
  { result := { content := [], toolsUsed := [], toolRounds := 0, totalUsage := uzero }
  , agent := agDefault, trace := [], emitted := [] }
def wC1Out : StreamOut := (executeStreamModel wOracle agDefault "hi".toList 5).getD dummyOut
def wC2Out : StreamOut := (executeStreamModel w2Oracle agDefault "hi".toList 5).getD dummyOut
def w5Oracle : Oracle :=
  { streams := fun i => if i = 0 then [wChunkTool] else [wChunkAns]
  , exec := execAlwaysOk }
def wC5Out : StreamOut := (executeStreamModel w5Oracle agDefault "hi".toList 5).getD dummyOut
def w7Oracle : Oracle :=
  { streams := fun i => if i = 0 then [wChunkTool] else [wChunkAns]
  , exec := execAlwaysOk }
def wC7Out : StreamOut := (executeStreamModel w7Oracle agDefault "hi".toList 5).getD dummyOut

/-- The retrieval plan the pipeline settles on before clamping: the
defaults when the rewrite call is absorbed by its `try`, else the parse of
the rewrite reply (src L385-424). -/
def pipelinePlan (o : Oracle) (um : Str) : RewritePlan :=
  match o.rewriteResp with
  | none => { query := um, top_k := 5, candidate_limit := 200 }
  | some resp => parsePlan um resp.content

/-- The clamped `top_k` (src L430). -/
def pipelineTk (o : Oracle) (um : Str) : Int := max 1 (min 50 (pipelinePlan o um).top_k)

/-- The clamped `candidate_limit` (src L431-434). -/
def pipelineCl (o : Oracle) (a : Agent) (um : Str) : Int :=
  let cl0 := max 20 (min 500 (pipelinePlan o um).candidate_limit)
  match a.maxMessagesLimit with
  | some l => if l ≠ 0 then min cl0 l else cl0
  | none => cl0

/-- The JSON argument object of the forced semantic-search call (src L445-449). -/
def pipelineParams (o : Oracle) (a : Agent) (um : Str) : Js :=
  .jobj [("query".toList, .jstr (pipelinePlan o um).query),
    ("top_k".toList, .jnum (pipelineTk o um)),
    ("candidate_limit".toList, .jnum (pipelineCl o a um))]

/-- The forced `semantic_search_messages` call the pipeline dispatches
(src L452-458). -/
def pipelineForced (o : Oracle) (a : Agent) (um : Str) : ToolCall :=
  { id := "semantic-uuid".toList, type := "function".toList
  , name := "semantic_search_messages".toList
  , arguments := stringifyJs (pipelineParams o a um) }


/-- Shape of the events appended by one phase: either no observation at all,
or a single trailing observation (a phase that observes cancellation
returns at once). -/
def AbortTail (evs : List TraceEv) : Prop :=
  noAbortEv evs = true ∨ ∃ pre t, evs = pre ++ [.abortObs t] ∧ noAbortEv pre = true

/-- Every `done` chunk among `cs` reports the usage total `u`. -/
def donesCarry (cs : List AgentStreamChunk) (u : TokenUsage) : Prop :=
  ∀ c ∈ cs, isDoneChunk c = true → c.usage = some u

def pipeForcedW : ToolCall := pipelineForced pipeOracle agDefault "q".toList
def pipeEvMsgW : ChatMessage :=
  { role := .system
  , content := mkEvidenceBlock (pipelinePlan pipeOracle "q".toList).query
      (pipelineTk pipeOracle "q".toList) (pipelineCl pipeOracle agDefault "q".toList)
      (pipeOracle.exec pipeForcedW).result }
def pipeAsstMsgW : ChatMessage :=
  { role := .assistant, content := [], tool_calls := some [pipeForcedW] }
def pipe2ForcedW : ToolCall := pipelineForced pipe2Oracle agDefault "q".toList
def pipe2EvMsgW : ChatMessage :=
  { role := .system
  , content := mkEvidenceBlock (pipelinePlan pipe2Oracle "q".toList).query
      (pipelineTk pipe2Oracle "q".toList) (pipelineCl pipe2Oracle agDefault "q".toList)
      (pipe2Oracle.exec pipe2ForcedW).result }
def pipe2AsstMsgW : ChatMessage :=
  { role := .assistant, content := [], tool_calls := some [pipe2ForcedW] }

def pipeFailOracle : Oracle :=
  { embeddingModelRaw := some "bge".toList
  , toolNames := ["semantic_search_messages".toList]
  , rewriteResp := none
  , exec := fun _ => { success := false, error := "boom".toList } }
def pipeFailForcedW : ToolCall := pipelineForced pipeFailOracle agDefault "q".toList
def pipeFailAsstW : ChatMessage :=
  { role := .assistant, content := [], tool_calls := some [pipeFailForcedW] }

-- ==================== Helper lemmas: traces and usage ====================

theorem traceUsage_nil : traceUsage [] = 0 := rfl

theorem traceUsage_cons (e : TraceEv) (l : List TraceEv) :
    traceUsage (e :: l) = evUsage e + traceUsage l := by
  simp [traceUsage]

theorem traceUsage_append (l1 l2 : List TraceEv) :
    traceUsage (l1 ++ l2) = traceUsage l1 + traceUsage l2 := by
  simp [traceUsage]

theorem addUsageES_spec (u : Option TokenUsage) (es : ES) :
    (addUsageES u es).totalUsage = es.totalUsage + u.getD uzero ∧
    (addUsageES u es).messages = es.messages ∧
    (addUsageES u es).toolsUsed = es.toolsUsed ∧
    (addUsageES u es).toolRounds = es.toolRounds ∧
    (addUsageES u es).time = es.time ∧
    (addUsageES u es).streamCalls = es.streamCalls ∧
    (addUsageES u es).trace = es.trace ∧
    (addUsageES u es).emitted = es.emitted := by
  cases u with
  | none =>
    have : es.totalUsage + uzero = es.totalUsage := add_zero es.totalUsage
    simp [addUsageES, this]
  | some uu => simp [addUsageES]

theorem noAbortEv_append (l1 l2 : List TraceEv) :
    noAbortEv (l1 ++ l2) = (noAbortEv l1 && noAbortEv l2) := by
  simp [noAbortEv]

theorem cleanAfter_of_noAbort (l : List TraceEv) (h : noAbortEv l = true) :
    cleanAfter l = true := by
  induction l with
  | nil => rfl
  | cons e rest ih =>
    simp only [noAbortEv, List.all_cons, Bool.and_eq_true] at h
    cases e with
    | abortObs t => simp [isAbortEv] at h
    | model t u => exact ih (by simpa [noAbortEv] using h.2)
    | streamBegin t => exact ih (by simpa [noAbortEv] using h.2)
    | delta t c => exact ih (by simpa [noAbortEv] using h.2)
    | toolsEv t cs => exact ih (by simpa [noAbortEv] using h.2)

theorem cleanAfter_append_abort (l : List TraceEv) (t : Nat) (h : noAbortEv l = true) :
    cleanAfter (l ++ [.abortObs t]) = true := by
  induction l with
  | nil => simp [cleanAfter]
  | cons e rest ih =>
    simp only [noAbortEv, List.all_cons, Bool.and_eq_true] at h
    have hr := ih (by simpa [noAbortEv] using h.2)
    cases e with
    | abortObs t2 => simp [isAbortEv] at h
    | model t2 u => simpa [cleanAfter] using hr
    | streamBegin t2 => simpa [cleanAfter] using hr
    | delta t2 c => simpa [cleanAfter] using hr
    | toolsEv t2 cs => simpa [cleanAfter] using hr


theorem abortTail_of_noAbort {evs : List TraceEv} (h : noAbortEv evs = true) :
    AbortTail evs := Or.inl h

theorem cleanAfter_parts (l1 l2 : List TraceEv) (h1 : noAbortEv l1 = true)
    (h2 : AbortTail l2) : cleanAfter (l1 ++ l2) = true := by
  cases h2 with
  | inl h =>
    exact cleanAfter_of_noAbort _ (by simp [noAbortEv_append, h1, h])
  | inr h =>
    obtain ⟨pre, t, rfl, hpre⟩ := h
    have : l1 ++ (pre ++ [TraceEv.abortObs t]) = (l1 ++ pre) ++ [TraceEv.abortObs t] := by
      simp
    rw [this]
    exact cleanAfter_append_abort _ _ (by simp [noAbortEv_append, h1, hpre])

theorem abortTail_parts {l1 l2 : List TraceEv} (h1 : noAbortEv l1 = true)
    (h2 : AbortTail l2) : AbortTail (l1 ++ l2) := by
  cases h2 with
  | inl h => exact Or.inl (by simp [noAbortEv_append, h1, h])
  | inr h =>
    obtain ⟨pre, t, rfl, hpre⟩ := h
    exact Or.inr ⟨l1 ++ pre, t, by simp, by simp [noAbortEv_append, h1, hpre]⟩

theorem noDoneC_append (l1 l2 : List AgentStreamChunk) :
    noDoneC (l1 ++ l2) = (noDoneC l1 && noDoneC l2) := by
  simp [noDoneC]


theorem donesCarry_of_noDone {cs : List AgentStreamChunk} (h : noDoneC cs = true)
    (u : TokenUsage) : donesCarry cs u := by
  intro c hc hdone
  simp only [noDoneC, List.all_eq_true] at h
  have := h c hc
  simp [hdone] at this

theorem donesCarry_append {l1 l2 : List AgentStreamChunk} {u : TokenUsage}
    (h1 : donesCarry l1 u) (h2 : donesCarry l2 u) : donesCarry (l1 ++ l2) u := by
  intro c hc hdone
  rcases List.mem_append.mp hc with h | h
  · exact h1 c h hdone
  · exact h2 c h hdone

-- ==================== handleToolCalls spec ====================

theorem handleOneResult_spec (stream : Bool) (es : ES) (p : ToolCall × ToolResult) :
    (handleOneResult stream es p).messages = es.messages ++ [toolMsgOf p.1 p.2] ∧
    (handleOneResult stream es p).toolsUsed = es.toolsUsed ++ [p.1.name] ∧
    (handleOneResult stream es p).toolRounds = es.toolRounds ∧
    (handleOneResult stream es p).totalUsage = es.totalUsage ∧
    (handleOneResult stream es p).time = es.time ∧
    (handleOneResult stream es p).streamCalls = es.streamCalls ∧
    (handleOneResult stream es p).trace = es.trace ∧
    (handleOneResult stream es p).emitted =
      es.emitted ++ (if stream then [toolResultChunk p.1.name p.2] else []) := by
  cases stream <;> simp [handleOneResult, emitIf, emitC, pushMsg]

theorem foldHandle_spec (stream : Bool) (l : List (ToolCall × ToolResult)) :
    ∀ es : ES,
    (l.foldl (handleOneResult stream) es).messages =
      es.messages ++ l.map (fun p => toolMsgOf p.1 p.2) ∧
    (l.foldl (handleOneResult stream) es).toolsUsed =
      es.toolsUsed ++ l.map (fun p => p.1.name) ∧
    (l.foldl (handleOneResult stream) es).toolRounds = es.toolRounds ∧
    (l.foldl (handleOneResult stream) es).totalUsage = es.totalUsage ∧
    (l.foldl (handleOneResult stream) es).time = es.time ∧
    (l.foldl (handleOneResult stream) es).streamCalls = es.streamCalls ∧
    (l.foldl (handleOneResult stream) es).trace = es.trace ∧
    (l.foldl (handleOneResult stream) es).emitted =
      es.emitted ++ (if stream then l.map (fun p => toolResultChunk p.1.name p.2) else []) := by
  induction l with
  | nil => intro es; cases stream <;> simp
  | cons p rest ih =>
    intro es
    have h1 := handleOneResult_spec stream es p
    have h2 := ih (handleOneResult stream es p)
    obtain ⟨m1, u1, r1, t1, ti1, s1, tr1, e1⟩ := h1
    obtain ⟨m2, u2, r2, t2, ti2, s2, tr2, e2⟩ := h2
    refine ⟨?_, ?_, ?_, ?_, ?_, ?_, ?_, ?_⟩ <;>
      simp [List.foldl_cons, m2, u2, r2, t2, ti2, s2, tr2, e2, m1, u1, r1, t1, ti1, s1, tr1, e1]
    cases stream <;> simp_all

theorem zip_map_exec (o : Oracle) (tcs : List ToolCall) :
    tcs.zip (tcs.map o.exec) = tcs.map (fun tc => (tc, o.exec tc)) := by
  induction tcs with
  | nil => rfl
  | cons tc rest ih => simp [List.zip_cons_cons, ih]

theorem handleToolCalls_spec (o : Oracle) (stream : Bool) (tcs : List ToolCall) (es : ES) :
    (handleToolCalls o stream tcs es).messages =
      es.messages ++ (({ role := .assistant, content := [], tool_calls := some tcs } :
        ChatMessage) :: tcs.map (fun tc => toolMsgOf tc (o.exec tc))) ∧
    (handleToolCalls o stream tcs es).toolsUsed =
      es.toolsUsed ++ tcs.map (fun tc => tc.name) ∧
    (handleToolCalls o stream tcs es).toolRounds = es.toolRounds ∧
    (handleToolCalls o stream tcs es).totalUsage = es.totalUsage ∧
    (handleToolCalls o stream tcs es).time = es.time + 1 ∧
    (handleToolCalls o stream tcs es).streamCalls = es.streamCalls ∧
    (handleToolCalls o stream tcs es).trace = es.trace ++ [.toolsEv es.time tcs] ∧
    (handleToolCalls o stream tcs es).emitted =
      es.emitted ++ (if stream then tcs.map (fun tc => toolResultChunk tc.name (o.exec tc))
        else []) := by
  have hzip := zip_map_exec o tcs
  have hunfold : handleToolCalls o stream tcs es =
      (tcs.zip (tcs.map o.exec)).foldl (handleOneResult stream)
        (tick (recEv (.toolsEv (pushMsg (⟨.assistant, [], some tcs, none⟩ : ChatMessage) es).time
          tcs) (pushMsg (⟨.assistant, [], some tcs, none⟩ : ChatMessage) es))) := rfl
  rw [hzip] at hunfold
  obtain ⟨m, u, r, t, ti, s, tr, e⟩ := foldHandle_spec stream
    (tcs.map (fun tc => (tc, o.exec tc)))
    (tick (recEv (.toolsEv (pushMsg (⟨.assistant, [], some tcs, none⟩ : ChatMessage) es).time
      tcs) (pushMsg (⟨.assistant, [], some tcs, none⟩ : ChatMessage) es)))
  rw [hunfold]
  refine ⟨?_, ?_, ?_, ?_, ?_, ?_, ?_, ?_⟩
  · rw [m]; simp [tick, recEv, pushMsg, List.map_map]
  · rw [u]; simp [tick, recEv, pushMsg, List.map_map]
  · rw [r]; simp [tick, recEv, pushMsg]
  · rw [t]; simp [tick, recEv, pushMsg]
  · rw [ti]; simp [tick, recEv, pushMsg]
  · rw [s]; simp [tick, recEv, pushMsg]
  · rw [tr]; simp [tick, recEv, pushMsg]
  · rw [e]; simp only [tick, recEv, pushMsg, List.map_map]
    cases stream <;> simp [Function.comp]

/-- Composition of the per-phase accounting equation
`total' + traceUsage trace = total + traceUsage trace'`. -/
theorem usage_delta_trans {es1 es2 es3 : ES}
    (h12 : es2.totalUsage + traceUsage es1.trace = es1.totalUsage + traceUsage es2.trace)
    (h23 : es3.totalUsage + traceUsage es2.trace = es2.totalUsage + traceUsage es3.trace) :
    es3.totalUsage + traceUsage es1.trace = es1.totalUsage + traceUsage es3.trace := by
  apply add_right_cancel (b := es2.totalUsage + traceUsage es2.trace)
  calc es3.totalUsage + traceUsage es1.trace + (es2.totalUsage + traceUsage es2.trace)
      = (es3.totalUsage + traceUsage es2.trace) + (es2.totalUsage + traceUsage es1.trace) := by
        abel
    _ = (es2.totalUsage + traceUsage es3.trace) + (es1.totalUsage + traceUsage es2.trace) := by
        rw [h23, h12]
    _ = es1.totalUsage + traceUsage es3.trace + (es2.totalUsage + traceUsage es2.trace) := by
        abel

-- ==================== Constructor-level simp lemmas ====================

@[simp] theorem evUsage_model (t : Nat) (u : Option TokenUsage) :
    evUsage (.model t u) = u.getD uzero := rfl
@[simp] theorem evUsage_streamBegin (t : Nat) : evUsage (.streamBegin t) = uzero := rfl
@[simp] theorem evUsage_delta (t : Nat) (c : StreamChunk) :
    evUsage (.delta t c) = c.usage.getD uzero := rfl
@[simp] theorem evUsage_toolsEv (t : Nat) (cs : List ToolCall) :
    evUsage (.toolsEv t cs) = uzero := rfl
@[simp] theorem evUsage_abortObs (t : Nat) : evUsage (.abortObs t) = uzero := rfl

@[simp] theorem isAbortEv_model (t : Nat) (u : Option TokenUsage) :
    isAbortEv (.model t u) = false := rfl
@[simp] theorem isAbortEv_streamBegin (t : Nat) : isAbortEv (.streamBegin t) = false := rfl
@[simp] theorem isAbortEv_delta (t : Nat) (c : StreamChunk) :
    isAbortEv (.delta t c) = false := rfl
@[simp] theorem isAbortEv_toolsEv (t : Nat) (cs : List ToolCall) :
    isAbortEv (.toolsEv t cs) = false := rfl
@[simp] theorem isAbortEv_abortObs (t : Nat) : isAbortEv (.abortObs t) = true := rfl

@[simp] theorem noAbortEv_nil : noAbortEv [] = true := rfl
@[simp] theorem noAbortEv_cons (e : TraceEv) (l : List TraceEv) :
    noAbortEv (e :: l) = (!isAbortEv e && noAbortEv l) := by simp [noAbortEv]

@[simp] theorem isDone_toolStart (n : Str) (p : Option Js) :
    isDoneChunk (toolStartChunk n p) = false := rfl
@[simp] theorem isDone_toolResult (n : Str) (r : ToolResult) :
    isDoneChunk (toolResultChunk n r) = false := rfl
@[simp] theorem isDone_content (c : Str) : isDoneChunk (contentChunk c) = false := rfl
@[simp] theorem isDone_done (u : TokenUsage) : isDoneChunk (doneChunk u) = true := rfl

@[simp] theorem noDoneC_nil : noDoneC [] = true := rfl
@[simp] theorem noDoneC_cons (c : AgentStreamChunk) (l : List AgentStreamChunk) :
    noDoneC (c :: l) = (!isDoneChunk c && noDoneC l) := by simp [noDoneC]

@[simp] theorem traceUsage_nil2 : traceUsage [] = 0 := rfl

@[simp] theorem uzero_eq_zero : uzero = (0 : TokenUsage) := rfl

@[simp] theorem addUsageES_totalUsage (u : Option TokenUsage) (es : ES) :
    (addUsageES u es).totalUsage = es.totalUsage + u.getD uzero := (addUsageES_spec u es).1
@[simp] theorem addUsageES_messages (u : Option TokenUsage) (es : ES) :
    (addUsageES u es).messages = es.messages := (addUsageES_spec u es).2.1
@[simp] theorem addUsageES_toolsUsed (u : Option TokenUsage) (es : ES) :
    (addUsageES u es).toolsUsed = es.toolsUsed := (addUsageES_spec u es).2.2.1
@[simp] theorem addUsageES_toolRounds (u : Option TokenUsage) (es : ES) :
    (addUsageES u es).toolRounds = es.toolRounds := (addUsageES_spec u es).2.2.2.1
@[simp] theorem addUsageES_time (u : Option TokenUsage) (es : ES) :
    (addUsageES u es).time = es.time := (addUsageES_spec u es).2.2.2.2.1
@[simp] theorem addUsageES_streamCalls (u : Option TokenUsage) (es : ES) :
    (addUsageES u es).streamCalls = es.streamCalls := (addUsageES_spec u es).2.2.2.2.2.1
@[simp] theorem addUsageES_trace (u : Option TokenUsage) (es : ES) :
    (addUsageES u es).trace = es.trace := (addUsageES_spec u es).2.2.2.2.2.2.1
@[simp] theorem addUsageES_emitted (u : Option TokenUsage) (es : ES) :
    (addUsageES u es).emitted = es.emitted := (addUsageES_spec u es).2.2.2.2.2.2.2

-- ==================== Semantic pipeline frame lemma ====================

set_option maxHeartbeats 1000000 in
theorem pipeline_frame (o : Oracle) (a : Agent) (stream : Bool) (um : Str) (es : ES) :
    (runSemanticPipelineM o a stream um es).2.toolRounds = es.toolRounds ∧
    (runSemanticPipelineM o a stream um es).2.streamCalls = es.streamCalls ∧
    (runSemanticPipelineM o a stream um es).2.totalUsage + traceUsage es.trace =
      es.totalUsage + traceUsage (runSemanticPipelineM o a stream um es).2.trace ∧
    (noAbortEv es.trace = true →
      noAbortEv (runSemanticPipelineM o a stream um es).2.trace = true) ∧
    (noDoneC es.emitted = true →
      noDoneC (runSemanticPipelineM o a stream um es).2.emitted = true) := by
  unfold runSemanticPipelineM
  cases hg : getEmbeddingModel o with
  | none => simp
  | some em =>
    cases hr : o.rewriteResp with
    | none =>
      simp only
      split
      · split <;>
          refine ⟨?_, ?_, ?_, ?_, ?_⟩ <;>
          cases stream <;>
          simp [tick, recEv, pushMsg, emitIf, emitC, traceUsage_append, traceUsage_cons,
            noAbortEv_append, noDoneC_append] <;>
          abel
      · simp
    | some resp =>
      simp only
      split
      · split <;>
          refine ⟨?_, ?_, ?_, ?_, ?_⟩ <;>
          cases stream <;>
          simp [tick, recEv, pushMsg, emitIf, emitC, traceUsage_append, traceUsage_cons,
            noAbortEv_append, noDoneC_append] <;>
          abel
      · refine ⟨?_, ?_, ?_, ?_, ?_⟩ <;>
          simp [tick, recEv, pushMsg, traceUsage_append, traceUsage_cons, noAbortEv_append] <;>
          abel

-- ==================== Auto search and preLoop frame lemmas ====================

theorem auto_frame (o : Oracle) (um : Str) (es : ES) :
    (runAutoSemanticSearchM o um es).2.toolRounds = es.toolRounds ∧
    (runAutoSemanticSearchM o um es).2.streamCalls = es.streamCalls ∧
    (runAutoSemanticSearchM o um es).2.messages = es.messages ∧
    (runAutoSemanticSearchM o um es).2.toolsUsed = es.toolsUsed ∧
    (runAutoSemanticSearchM o um es).2.totalUsage = es.totalUsage ∧
    (runAutoSemanticSearchM o um es).2.emitted = es.emitted ∧
    (runAutoSemanticSearchM o um es).2.totalUsage + traceUsage es.trace =
      es.totalUsage + traceUsage (runAutoSemanticSearchM o um es).2.trace ∧
    (noAbortEv es.trace = true →
      noAbortEv (runAutoSemanticSearchM o um es).2.trace = true) := by
  unfold runAutoSemanticSearchM
  split
  · dsimp only
    refine ⟨?_, ?_, ?_, ?_, ?_, ?_, ?_, ?_⟩ <;>
      (try split) <;> (try split) <;>
      simp [tick, recEv, traceUsage_append, traceUsage_cons, noAbortEv_append] <;>
      try abel
  · simp

theorem preLoop_frame (o : Oracle) (a : Agent) (stream : Bool) (um : Str) :
    (preLoop o a stream um).toolRounds = 0 ∧
    (preLoop o a stream um).streamCalls = 0 ∧
    (preLoop o a stream um).totalUsage = a.totalUsage + traceUsage (preLoop o a stream um).trace ∧
    noAbortEv (preLoop o a stream um).trace = true ∧
    noDoneC (preLoop o a stream um).emitted = true := by
  obtain ⟨p1, p2, p3, p4, p5⟩ := pipeline_frame o a stream um (initES a um)
  obtain ⟨a1, a2, a3, a4, a5, a6, a7, a8⟩ :=
    auto_frame o um (runSemanticPipelineM o a stream um (initES a um)).2
  have hinit_tr : (initES a um).trace = [] := rfl
  have hinit_em : (initES a um).emitted = [] := rfl
  have hinit_tu : (initES a um).totalUsage = a.totalUsage := rfl
  have hinit_rd : (initES a um).toolRounds = 0 := rfl
  have hinit_sc : (initES a um).streamCalls = 0 := rfl
  rw [hinit_tr, hinit_tu] at p3
  simp only [traceUsage_nil, add_zero] at p3
  rw [hinit_tr] at p4
  simp only [noAbortEv_nil, true_implies] at p4
  rw [hinit_em] at p5
  simp only [noDoneC_nil, true_implies] at p5
  have pusage := usage_delta_trans
    (by rw [hinit_tr, hinit_tu]; simpa [traceUsage_nil, add_zero] using p3) a7
  rw [hinit_tr, hinit_tu] at pusage
  simp only [traceUsage_nil, add_zero] at pusage
  unfold preLoop
  have hsplitP : runSemanticPipelineM o a stream um (initES a um) =
      ((runSemanticPipelineM o a stream um (initES a um)).1,
       (runSemanticPipelineM o a stream um (initES a um)).2) := rfl
  rw [hsplitP]
  dsimp only
  split
  · have hsplitA : runAutoSemanticSearchM o um
        (runSemanticPipelineM o a stream um (initES a um)).2 =
        ((runAutoSemanticSearchM o um
          (runSemanticPipelineM o a stream um (initES a um)).2).1,
         (runAutoSemanticSearchM o um
          (runSemanticPipelineM o a stream um (initES a um)).2).2) := rfl
    rw [hsplitA]
    dsimp only
    cases hA : (runAutoSemanticSearchM o um
        (runSemanticPipelineM o a stream um (initES a um)).2).1 with
    | none =>
      exact ⟨by rw [a1]; rw [p1, hinit_rd], by rw [a2]; rw [p2, hinit_sc],
        pusage, a8 p4, by rw [a6]; exact p5⟩
    | some evd =>
      refine ⟨?_, ?_, ?_, ?_, ?_⟩
      · show (runAutoSemanticSearchM o um _).2.toolRounds = 0
        rw [a1, p1, hinit_rd]
      · show (runAutoSemanticSearchM o um _).2.streamCalls = 0
        rw [a2, p2, hinit_sc]
      · exact pusage
      · exact a8 p4
      · show noDoneC (runAutoSemanticSearchM o um _).2.emitted = true
        rw [a6]; exact p5
  · exact ⟨by rw [p1, hinit_rd], by rw [p2, hinit_sc], p3, p4, p5⟩

-- ==================== execute loop master lemma ====================

theorem execLoop_master (o : Oracle) : ∀ (remaining : Nat) (es : ES),
    (execLoop o remaining es).1.toolRounds = (execLoop o remaining es).2.toolRounds ∧
    (execLoop o remaining es).1.totalUsage = (execLoop o remaining es).2.totalUsage ∧
    (execLoop o remaining es).2.toolRounds ≤ es.toolRounds + remaining ∧
    (execLoop o remaining es).2.totalUsage + traceUsage es.trace =
      es.totalUsage + traceUsage (execLoop o remaining es).2.trace ∧
    (noAbortEv es.trace = true → cleanAfter (execLoop o remaining es).2.trace = true) := by
  intro remaining
  induction remaining with
  | zero =>
    intro es
    refine ⟨rfl, rfl, ?_, ?_, ?_⟩
    · simp [execLoop, tick, recEv, pushMsg]
    · simp only [execLoop, tick, recEv, pushMsg, addUsageES_totalUsage, addUsageES_trace,
        traceUsage_append, traceUsage_cons, traceUsage_nil, evUsage_model]
      abel
    · intro h
      apply cleanAfter_of_noAbort
      simp [execLoop, tick, recEv, pushMsg, noAbortEv_append, h]
  | succ r ih =>
    intro es
    simp only [execLoop]
    split
    · refine ⟨rfl, rfl, by simp only [recEv]; omega, ?_, ?_⟩
      · simp only [recEv, traceUsage_append, traceUsage_cons, traceUsage_nil, evUsage_abortObs]
        abel
      · intro h
        exact cleanAfter_append_abort _ _ h
    · split
      · -- final answer this round
        refine ⟨rfl, rfl, by simp only [tick, recEv, addUsageES_toolRounds]; omega, ?_, ?_⟩
        · simp only [tick, recEv, addUsageES_totalUsage, addUsageES_trace, traceUsage_append,
            traceUsage_cons, traceUsage_nil, evUsage_model]
          abel
        · intro h
          apply cleanAfter_of_noAbort
          simp [tick, recEv, noAbortEv_append, h]
      · -- tool round, recurse
        rename_i tcs _
        set resp := o.chatResps es.toolRounds with hresp
        set es1 := addUsageES resp.usage (tick (recEv (.model es.time resp.usage) es)) with hes1
        set es2 := { handleToolCalls o false tcs es1 with
          toolRounds := (handleToolCalls o false tcs es1).toolRounds + 1 } with hes2
        obtain ⟨hm, hu, hr, ht, hti, hs, htr, he⟩ := handleToolCalls_spec o false tcs es1
        obtain ⟨i1, i2, i3, i4, i5⟩ := ih es2
        have hes1_tr : es1.trace = es.trace ++ [.model es.time resp.usage] := by
          simp [hes1, tick, recEv]
        have hes1_tu : es1.totalUsage = es.totalUsage + resp.usage.getD uzero := by
          simp [hes1, tick, recEv]
        have hes2_tr : es2.trace = es.trace ++ [.model es.time resp.usage, .toolsEv es1.time tcs] := by
          rw [hes2]; show (handleToolCalls o false tcs es1).trace = _
          rw [htr, hes1_tr]; simp
        have hes2_tu : es2.totalUsage = es.totalUsage + resp.usage.getD uzero := by
          rw [hes2]; show (handleToolCalls o false tcs es1).totalUsage = _
          rw [ht, hes1_tu]
        have hes2_rd : es2.toolRounds = es.toolRounds + 1 := by
          rw [hes2]; show (handleToolCalls o false tcs es1).toolRounds + 1 = _
          rw [hr]; simp [hes1, tick, recEv]
        refine ⟨i1, i2, ?_, ?_, ?_⟩
        · calc (execLoop o r es2).2.toolRounds ≤ es2.toolRounds + r := i3
            _ = es.toolRounds + (r + 1) := by rw [hes2_rd]; omega
        · have base : es2.totalUsage + traceUsage es.trace =
              es.totalUsage + traceUsage es2.trace := by
            rw [hes2_tu, hes2_tr]
            simp only [traceUsage_append, traceUsage_cons, traceUsage_nil, evUsage_model,
              evUsage_toolsEv]
            abel
          exact usage_delta_trans base i4
        · intro h
          apply i5
          rw [hes2_tr]
          simp [noAbortEv_append, h]

-- ==================== executeModel master lemma ====================

theorem executeModel_master (o : Oracle) (a : Agent) (um : Str) :
    (executeModel o a um).1.totalUsage = (executeModel o a um).2.1.totalUsage ∧
    (executeModel o a um).1.totalUsage = a.totalUsage + traceUsage (executeModel o a um).2.2 ∧
    (executeModel o a um).1.toolRounds ≤ a.maxToolRounds ∧
    cleanAfter (executeModel o a um).2.2 = true := by
  unfold executeModel
  split
  · refine ⟨rfl, ?_, by simp, rfl⟩
    simp [traceUsage_cons, traceUsage_nil]
  · obtain ⟨q1, q2, q3, q4, q5⟩ := preLoop_frame o a false um
    obtain ⟨e1, e2, e3, e4, e5⟩ := execLoop_master o a.maxToolRounds (preLoop o a false um)
    dsimp only
    have hsplitE : execLoop o a.maxToolRounds (preLoop o a false um) =
        ((execLoop o a.maxToolRounds (preLoop o a false um)).1,
         (execLoop o a.maxToolRounds (preLoop o a false um)).2) := rfl
    rw [hsplitE]
    dsimp only
    refine ⟨e2, ?_, ?_, e5 q4⟩
    · have key : (execLoop o a.maxToolRounds (preLoop o a false um)).2.totalUsage +
          traceUsage (preLoop o a false um).trace =
          (a.totalUsage +
            traceUsage (execLoop o a.maxToolRounds (preLoop o a false um)).2.trace) +
          traceUsage (preLoop o a false um).trace := by
        rw [e4, q3]; abel
      rw [e2]
      exact add_right_cancel key
    · rw [e1]
      calc (execLoop o a.maxToolRounds (preLoop o a false um)).2.toolRounds ≤
          (preLoop o a false um).toolRounds + a.maxToolRounds := e3
        _ = a.maxToolRounds := by rw [q1]; omega

-- ==================== Streaming loop lemmas ====================

theorem foldEmit_spec (outs : List Str) : ∀ es : ES,
    ((outs.foldl (fun es2 nc => emitC (contentChunk nc) es2) es)).toolRounds = es.toolRounds ∧
    ((outs.foldl (fun es2 nc => emitC (contentChunk nc) es2) es)).streamCalls = es.streamCalls ∧
    ((outs.foldl (fun es2 nc => emitC (contentChunk nc) es2) es)).messages = es.messages ∧
    ((outs.foldl (fun es2 nc => emitC (contentChunk nc) es2) es)).toolsUsed = es.toolsUsed ∧
    ((outs.foldl (fun es2 nc => emitC (contentChunk nc) es2) es)).totalUsage = es.totalUsage ∧
    ((outs.foldl (fun es2 nc => emitC (contentChunk nc) es2) es)).time = es.time ∧
    ((outs.foldl (fun es2 nc => emitC (contentChunk nc) es2) es)).trace = es.trace ∧
    (noDoneC es.emitted = true →
      noDoneC ((outs.foldl (fun es2 nc => emitC (contentChunk nc) es2) es)).emitted = true) := by
  induction outs with
  | nil => intro es; simp
  | cons x rest ih =>
    intro es
    obtain ⟨i1, i2, i3, i4, i5, i6, i7, i8⟩ := ih (emitC (contentChunk x) es)
    refine ⟨by rw [List.foldl_cons, i1]; simp [emitC], by rw [List.foldl_cons, i2]; simp [emitC],
      by rw [List.foldl_cons, i3]; simp [emitC], by rw [List.foldl_cons, i4]; simp [emitC],
      by rw [List.foldl_cons, i5]; simp [emitC], by rw [List.foldl_cons, i6]; simp [emitC],
      by rw [List.foldl_cons, i7]; simp [emitC], ?_⟩
    intro h
    rw [List.foldl_cons]
    apply i8
    simp [emitC, noDoneC_append, h]

theorem contentStep_spec (c : StreamChunk) (rst : RoundSt) (es : ES) :
    (contentStep c rst es).2.toolRounds = es.toolRounds ∧
    (contentStep c rst es).2.streamCalls = es.streamCalls ∧
    (contentStep c rst es).2.messages = es.messages ∧
    (contentStep c rst es).2.toolsUsed = es.toolsUsed ∧
    (contentStep c rst es).2.totalUsage = es.totalUsage ∧
    (contentStep c rst es).2.time = es.time ∧
    (contentStep c rst es).2.trace = es.trace ∧
    (noDoneC es.emitted = true → noDoneC (contentStep c rst es).2.emitted = true) := by
  unfold contentStep
  cases c.content with
  | none => simp
  | some d =>
    dsimp only
    split
    · exact foldEmit_spec (processContent rst d).2 es
    · simp

set_option maxHeartbeats 1000000 in
theorem processChunk_spec (o : Oracle) (fc : Str) (c : StreamChunk) (rst : RoundSt) (es : ES) :
    (∀ rst2 es2, processChunk o fc c rst es = .next rst2 es2 →
      es2.toolRounds = es.toolRounds ∧ es2.streamCalls = es.streamCalls ∧
      es2.messages = es.messages ∧ es2.toolsUsed = es.toolsUsed ∧
      es2.totalUsage + traceUsage es.trace = es.totalUsage + traceUsage es2.trace ∧
      (noAbortEv es.trace = true → noAbortEv es2.trace = true) ∧
      (noDoneC es.emitted = true → noDoneC es2.emitted = true)) ∧
    (∀ r es2, processChunk o fc c rst es = .ret r es2 →
      r.toolRounds = es.toolRounds ∧ r.toolsUsed = es.toolsUsed ∧
      r.totalUsage = es2.totalUsage ∧
      es2.toolRounds = es.toolRounds ∧ es2.streamCalls = es.streamCalls ∧
      es2.messages = es.messages ∧ es2.toolsUsed = es.toolsUsed ∧
      es2.totalUsage + traceUsage es.trace = es.totalUsage + traceUsage es2.trace ∧
      (noAbortEv es.trace = true → cleanAfter es2.trace = true) ∧
      (noDoneC es.emitted = true → donesCarry es2.emitted es2.totalUsage)) := by
  obtain ⟨s1, s2, s3, s4, s5, s6, s7, s8⟩ :=
    contentStep_spec c rst (recEv (.delta (tick es).time c) (tick es))
  have hB_tr : (recEv (.delta (tick es).time c) (tick es)).trace =
      es.trace ++ [.delta (es.time + 1) c] := by simp [recEv, tick]
  have hB_tu : (recEv (.delta (tick es).time c) (tick es)).totalUsage = es.totalUsage := rfl
  have hB_em : (recEv (.delta (tick es).time c) (tick es)).emitted = es.emitted := rfl
  -- facts about the post-usage state esD (shared by every non-abort branch)
  have hD1 : (addUsageES c.usage (contentStep c rst
      (recEv (.delta (tick es).time c) (tick es))).2).toolRounds = es.toolRounds := by
    rw [addUsageES_toolRounds, s1]; simp [recEv, tick]
  have hD2 : (addUsageES c.usage (contentStep c rst
      (recEv (.delta (tick es).time c) (tick es))).2).streamCalls = es.streamCalls := by
    rw [addUsageES_streamCalls, s2]; simp [recEv, tick]
  have hD3 : (addUsageES c.usage (contentStep c rst
      (recEv (.delta (tick es).time c) (tick es))).2).messages = es.messages := by
    rw [addUsageES_messages, s3]; simp [recEv, tick]
  have hD4 : (addUsageES c.usage (contentStep c rst
      (recEv (.delta (tick es).time c) (tick es))).2).toolsUsed = es.toolsUsed := by
    rw [addUsageES_toolsUsed, s4]; simp [recEv, tick]
  have hD5 : (addUsageES c.usage (contentStep c rst
      (recEv (.delta (tick es).time c) (tick es))).2).totalUsage + traceUsage es.trace =
      es.totalUsage + traceUsage (addUsageES c.usage (contentStep c rst
        (recEv (.delta (tick es).time c) (tick es))).2).trace := by
    rw [addUsageES_totalUsage, addUsageES_trace, s5, s7, hB_tu, hB_tr]
    simp only [traceUsage_append, traceUsage_cons, traceUsage_nil, evUsage_delta]
    abel
  have hD6 : noAbortEv es.trace = true →
      noAbortEv (addUsageES c.usage (contentStep c rst
        (recEv (.delta (tick es).time c) (tick es))).2).trace = true := by
    intro h
    rw [addUsageES_trace, s7, hB_tr]
    simp [noAbortEv_append, h]
  have hD7 : noDoneC es.emitted = true →
      noDoneC (addUsageES c.usage (contentStep c rst
        (recEv (.delta (tick es).time c) (tick es))).2).emitted = true := by
    intro h
    rw [addUsageES_emitted]
    exact s8 (by rw [hB_em]; exact h)
  constructor
  · intro rst2 es2 h
    unfold processChunk at h
    try dsimp only at h
    split at h
    · exact absurd h (by simp)
    · split at h
      · split at h
        · split at h
          · split at h
            · cases h
              exact ⟨hD1, hD2, hD3, hD4, hD5, hD6, hD7⟩
            · exact absurd h (by simp)
          · exact absurd h (by simp)
        · cases h
          exact ⟨hD1, hD2, hD3, hD4, hD5, hD6, hD7⟩
      · cases h
        exact ⟨hD1, hD2, hD3, hD4, hD5, hD6, hD7⟩
  · have retcase : ∀ (esX : ES) (clean rem : Str),
        esX.toolRounds = es.toolRounds → esX.streamCalls = es.streamCalls →
        esX.messages = es.messages → esX.toolsUsed = es.toolsUsed →
        esX.totalUsage + traceUsage es.trace = es.totalUsage + traceUsage esX.trace →
        (noAbortEv es.trace = true → noAbortEv esX.trace = true) →
        (noDoneC es.emitted = true → noDoneC esX.emitted = true) →
        ∀ esE : ES, esE = (if rem ≠ [] then emitC (contentChunk rem) esX else esX) →
        (mkResult clean (emitC (doneChunk esE.totalUsage) esE)).toolRounds = es.toolRounds ∧
        (mkResult clean (emitC (doneChunk esE.totalUsage) esE)).toolsUsed = es.toolsUsed ∧
        (mkResult clean (emitC (doneChunk esE.totalUsage) esE)).totalUsage =
          (emitC (doneChunk esE.totalUsage) esE).totalUsage ∧
        (emitC (doneChunk esE.totalUsage) esE).toolRounds = es.toolRounds ∧
        (emitC (doneChunk esE.totalUsage) esE).streamCalls = es.streamCalls ∧
        (emitC (doneChunk esE.totalUsage) esE).messages = es.messages ∧
        (emitC (doneChunk esE.totalUsage) esE).toolsUsed = es.toolsUsed ∧
        (emitC (doneChunk esE.totalUsage) esE).totalUsage + traceUsage es.trace =
          es.totalUsage + traceUsage (emitC (doneChunk esE.totalUsage) esE).trace ∧
        (noAbortEv es.trace = true →
          cleanAfter (emitC (doneChunk esE.totalUsage) esE).trace = true) ∧
        (noDoneC es.emitted = true →
          donesCarry (emitC (doneChunk esE.totalUsage) esE).emitted
            (emitC (doneChunk esE.totalUsage) esE).totalUsage) := by
      intro esX clean rem h1 h2 h3 h4 h5 h6 h7 esE hE
      have hE1 : esE.toolRounds = esX.toolRounds := by rw [hE]; split <;> rfl
      have hE2 : esE.streamCalls = esX.streamCalls := by rw [hE]; split <;> rfl
      have hE3 : esE.messages = esX.messages := by rw [hE]; split <;> rfl
      have hE4 : esE.toolsUsed = esX.toolsUsed := by rw [hE]; split <;> rfl
      have hE5 : esE.totalUsage = esX.totalUsage := by rw [hE]; split <;> rfl
      have hE6 : esE.trace = esX.trace := by rw [hE]; split <;> rfl
      have hE7 : noDoneC es.emitted = true → noDoneC esE.emitted = true := by
        intro hh
        rw [hE]
        split
        · simp [emitC, noDoneC_append, h7 hh]
        · exact h7 hh
      refine ⟨by simp [mkResult, emitC, hE1, h1], by simp [mkResult, emitC, hE4, h4],
        rfl, by simp [emitC, hE1, h1], by simp [emitC, hE2, h2], by simp [emitC, hE3, h3],
        by simp [emitC, hE4, h4], ?_, ?_, ?_⟩
      · show esE.totalUsage + traceUsage es.trace = es.totalUsage + traceUsage esE.trace
        rw [hE5, hE6]; exact h5
      · intro hna
        show cleanAfter esE.trace = true
        rw [hE6]
        exact cleanAfter_of_noAbort _ (h6 hna)
      · intro hnd
        show donesCarry (esE.emitted ++ [doneChunk esE.totalUsage]) esE.totalUsage
        apply donesCarry_append (donesCarry_of_noDone (hE7 hnd) _)
        intro cc hcc hdd
        simp only [List.mem_singleton] at hcc
        subst hcc
        rfl
    intro r es2 h
    unfold processChunk at h
    try dsimp only at h
    split at h
    · -- cancellation observed on this delta
      cases h
      refine ⟨by simp [emitC, recEv, tick, mkResult], by simp [emitC, recEv, tick, mkResult],
        by simp [emitC, recEv, tick, mkResult], by simp [emitC, recEv, tick],
        by simp [emitC, recEv, tick], by simp [emitC, recEv, tick],
        by simp [emitC, recEv, tick], ?_, ?_, ?_⟩
      · simp only [emitC, recEv, tick]
        simp only [traceUsage_append, traceUsage_cons, traceUsage_nil, evUsage_abortObs]
        abel
      · intro hna
        simp only [emitC, recEv, tick]
        exact cleanAfter_append_abort _ _ hna
      · intro hnd
        simp only [emitC, recEv, tick]
        apply donesCarry_append (donesCarry_of_noDone hnd _)
        intro cc hcc hd
        simp only [List.mem_singleton] at hcc
        subst hcc
        rfl
    · split at h
      · split at h
        · split at h
          · split at h
            · exact absurd h (by simp)
            · cases h
              exact retcase _ _ _ hD1 hD2 hD3 hD4 hD5 hD6 hD7 _ rfl
          · cases h
            exact retcase (addUsageES c.usage (contentStep c rst
                (recEv (.delta (tick es).time c) (tick es))).2) _ []
              hD1 hD2 hD3 hD4 hD5 hD6 hD7
              (addUsageES c.usage (contentStep c rst
                (recEv (.delta (tick es).time c) (tick es))).2) (by simp)
        · exact absurd h (by simp)
      · exact absurd h (by simp)

theorem runChunks_master (o : Oracle) (fc : Str) :
    ∀ (chunks : List StreamChunk) (rst : RoundSt) (es : ES),
    (∀ rst2 es2, runChunks o fc chunks rst es = .streamDone rst2 es2 →
      es2.toolRounds = es.toolRounds ∧ es2.streamCalls = es.streamCalls ∧
      es2.messages = es.messages ∧ es2.toolsUsed = es.toolsUsed ∧
      es2.totalUsage + traceUsage es.trace = es.totalUsage + traceUsage es2.trace ∧
      (noAbortEv es.trace = true → noAbortEv es2.trace = true) ∧
      (noDoneC es.emitted = true → noDoneC es2.emitted = true)) ∧
    (∀ r es2, runChunks o fc chunks rst es = .earlyRet r es2 →
      r.toolRounds = es.toolRounds ∧ r.toolsUsed = es.toolsUsed ∧
      r.totalUsage = es2.totalUsage ∧
      es2.toolRounds = es.toolRounds ∧ es2.streamCalls = es.streamCalls ∧
      es2.messages = es.messages ∧ es2.toolsUsed = es.toolsUsed ∧
      es2.totalUsage + traceUsage es.trace = es.totalUsage + traceUsage es2.trace ∧
      (noAbortEv es.trace = true → cleanAfter es2.trace = true) ∧
      (noDoneC es.emitted = true → donesCarry es2.emitted es2.totalUsage)) := by
  intro chunks
  induction chunks with
  | nil =>
    intro rst es
    constructor
    · intro rst2 es2 h
      cases h
      exact ⟨rfl, rfl, rfl, rfl, by abel, fun h => h, fun h => h⟩
    · intro r es2 h
      exact absurd h (by simp [runChunks])
  | cons c rest ih =>
    intro rst es
    obtain ⟨pnext, pret⟩ := processChunk_spec o fc c rst es
    constructor
    · intro rst2 es2 h
      simp only [runChunks] at h
      cases hp : processChunk o fc c rst es with
      | ret r1 esr =>
        rw [hp] at h
        exact absurd h (by simp)
      | next rst1 es1 =>
        rw [hp] at h
        obtain ⟨n1, n2, n3, n4, n5, n6, n7⟩ := pnext rst1 es1 hp
        obtain ⟨i1, i2, i3, i4, i5, i6, i7⟩ := (ih rst1 es1).1 rst2 es2 h
        refine ⟨by rw [i1, n1], by rw [i2, n2], by rw [i3, n3], by rw [i4, n4], ?_, ?_, ?_⟩
        · exact usage_delta_trans n5 i5
        · intro hna
          exact i6 (n6 hna)
        · intro hnd
          exact i7 (n7 hnd)
    · intro r es2 h
      simp only [runChunks] at h
      cases hp : processChunk o fc c rst es with
      | ret r1 esr =>
        rw [hp] at h
        cases h
        exact pret r es2 hp
      | next rst1 es1 =>
        rw [hp] at h
        obtain ⟨n1, n2, n3, n4, n5, n6, n7⟩ := pnext rst1 es1 hp
        obtain ⟨i1, i2, i3, i4, i5, i6, i7, i8, i9, i10⟩ := (ih rst1 es1).2 r es2 h
        refine ⟨by rw [i1, n1], by rw [i2, n4], i3, by rw [i4, n1], by rw [i5, n2],
          by rw [i6, n3], by rw [i7, n4], ?_, ?_, ?_⟩
        · exact usage_delta_trans n5 i8
        · intro hna
          exact i9 (n6 hna)
        · intro hnd
          exact i10 (n7 hnd)

theorem runFinalChunks_master (o : Oracle) : ∀ (chunks : List StreamChunk) (fc : Str) (es : ES),
    (runFinalChunks o chunks fc es).2.toolRounds = es.toolRounds ∧
    (runFinalChunks o chunks fc es).2.streamCalls = es.streamCalls ∧
    (runFinalChunks o chunks fc es).2.messages = es.messages ∧
    (runFinalChunks o chunks fc es).2.toolsUsed = es.toolsUsed ∧
    (runFinalChunks o chunks fc es).2.totalUsage + traceUsage es.trace =
      es.totalUsage + traceUsage (runFinalChunks o chunks fc es).2.trace ∧
    (noAbortEv es.trace = true → cleanAfter (runFinalChunks o chunks fc es).2.trace = true) ∧
    (finishTerminal chunks = true → noDoneC es.emitted = true →
      donesCarry (runFinalChunks o chunks fc es).2.emitted
        (runFinalChunks o chunks fc es).2.totalUsage) := by
  intro chunks
  induction chunks with
  | nil =>
    intro fc es
    refine ⟨rfl, rfl, rfl, rfl, by abel, ?_, ?_⟩
    · intro h; exact cleanAfter_of_noAbort _ h
    · intro _ h; exact donesCarry_of_noDone h _
  | cons c rest ih =>
    intro fc es
    simp only [runFinalChunks]
    split
    · refine ⟨by simp [emitC, recEv, tick], by simp [emitC, recEv, tick],
        by simp [emitC, recEv, tick], by simp [emitC, recEv, tick], ?_, ?_, ?_⟩
      · simp only [emitC, recEv, tick, traceUsage_append, traceUsage_cons, traceUsage_nil,
          evUsage_abortObs]
        abel
      · intro hna
        simp only [emitC, recEv, tick]
        exact cleanAfter_append_abort _ _ hna
      · intro _ hnd
        simp only [emitC, recEv, tick]
        apply donesCarry_append (donesCarry_of_noDone hnd _)
        intro cc hcc hdd
        simp only [List.mem_singleton] at hcc
        subst hcc
        rfl
    · -- delta consumed; abstract over the post-usage state esD
      have main : ∀ (esD : ES) (fc1 : Str),
          esD.toolRounds = es.toolRounds → esD.streamCalls = es.streamCalls →
          esD.messages = es.messages → esD.toolsUsed = es.toolsUsed →
          esD.totalUsage + traceUsage es.trace = es.totalUsage + traceUsage esD.trace →
          (noAbortEv es.trace = true → noAbortEv esD.trace = true) →
          (noDoneC es.emitted = true → noDoneC esD.emitted = true) →
          ∀ esE : ES, esE = (if c.isFinished = true then
            emitC (doneChunk esD.totalUsage) esD else esD) →
          (runFinalChunks o rest fc1 esE).2.toolRounds = es.toolRounds ∧
          (runFinalChunks o rest fc1 esE).2.streamCalls = es.streamCalls ∧
          (runFinalChunks o rest fc1 esE).2.messages = es.messages ∧
          (runFinalChunks o rest fc1 esE).2.toolsUsed = es.toolsUsed ∧
          (runFinalChunks o rest fc1 esE).2.totalUsage + traceUsage es.trace =
            es.totalUsage + traceUsage (runFinalChunks o rest fc1 esE).2.trace ∧
          (noAbortEv es.trace = true →
            cleanAfter (runFinalChunks o rest fc1 esE).2.trace = true) ∧
          (finishTerminal (c :: rest) = true → noDoneC es.emitted = true →
            donesCarry (runFinalChunks o rest fc1 esE).2.emitted
              (runFinalChunks o rest fc1 esE).2.totalUsage) := by
        intro esD fc1 m1 m2 m3 m4 m5 m6 m7 esE hE
        obtain ⟨j1, j2, j3, j4, j5, j6, j7⟩ := ih fc1 esE
        have hE1 : esE.toolRounds = esD.toolRounds := by rw [hE]; split <;> rfl
        have hE2 : esE.streamCalls = esD.streamCalls := by rw [hE]; split <;> rfl
        have hE3 : esE.messages = esD.messages := by rw [hE]; split <;> rfl
        have hE4 : esE.toolsUsed = esD.toolsUsed := by rw [hE]; split <;> rfl
        have hE5 : esE.totalUsage = esD.totalUsage := by rw [hE]; split <;> rfl
        have hE6 : esE.trace = esD.trace := by rw [hE]; split <;> rfl
        have hEacct : esE.totalUsage + traceUsage es.trace =
            es.totalUsage + traceUsage esE.trace := by
          rw [hE5, hE6]; exact m5
        refine ⟨by rw [j1, hE1, m1], by rw [j2, hE2, m2], by rw [j3, hE3, m3],
          by rw [j4, hE4, m4],
          usage_delta_trans hEacct j5, ?_, ?_⟩
        · intro hna
          apply j6
          rw [hE6]
          exact m6 hna
        · intro hft hnd
          cases hfin : c.isFinished with
          | false =>
            have hft2 : finishTerminal rest = true := by
              simpa [finishTerminal, hfin] using hft
            apply j7 hft2
            rw [hE]
            simp only [hfin, Bool.false_eq_true, if_false]
            exact m7 hnd
          | true =>
            have hrest : rest = [] := by
              have := hft
              simp only [finishTerminal, hfin, if_true] at this
              exact List.isEmpty_iff.mp this
            subst hrest
            show donesCarry esE.emitted esE.totalUsage
            rw [hE]
            simp only [hfin, if_true]
            show donesCarry (esD.emitted ++ [doneChunk esD.totalUsage])
              (emitC (doneChunk esD.totalUsage) esD).totalUsage
            apply donesCarry_append
            · exact donesCarry_of_noDone (m7 hnd) _
            · intro cc hcc hdd
              simp only [List.mem_singleton] at hcc
              subst hcc
              rfl
      -- dispatch on the content branch to instantiate esD
      have hBacct : ∀ u : Option TokenUsage, u = c.usage →
          ∀ esC : ES, esC.totalUsage = es.totalUsage →
            esC.trace = es.trace ++ [TraceEv.delta (es.time + 1) c] →
          (addUsageES u esC).totalUsage + traceUsage es.trace =
            es.totalUsage + traceUsage (addUsageES u esC).trace := by
        intro u hu esC h1 h2
        rw [addUsageES_totalUsage, addUsageES_trace, h1, h2, hu]
        simp only [traceUsage_append, traceUsage_cons, traceUsage_nil, evUsage_delta]
        abel
      cases hc : c.content with
      | none =>
        dsimp only
        refine main _ _ ?_ ?_ ?_ ?_ ?_ ?_ ?_ _ rfl
        · simp [addUsageES_toolRounds, recEv, tick]
        · simp [addUsageES_streamCalls, recEv, tick]
        · simp [addUsageES_messages, recEv, tick]
        · simp [addUsageES_toolsUsed, recEv, tick]
        · exact hBacct c.usage rfl _ (by simp [recEv, tick]) (by simp [recEv, tick])
        · intro hna
          rw [addUsageES_trace]
          simp [recEv, tick, noAbortEv_append, hna]
        · intro hnd
          rw [addUsageES_emitted]
          simpa [recEv, tick] using hnd
      | some d =>
        by_cases hd : d ≠ []
        · simp only [if_pos hd]
          refine main _ _ ?_ ?_ ?_ ?_ ?_ ?_ ?_ _ rfl
          · simp [addUsageES_toolRounds, emitC, recEv, tick]
          · simp [addUsageES_streamCalls, emitC, recEv, tick]
          · simp [addUsageES_messages, emitC, recEv, tick]
          · simp [addUsageES_toolsUsed, emitC, recEv, tick]
          · exact hBacct c.usage rfl _ (by simp [emitC, recEv, tick])
              (by simp [emitC, recEv, tick])
          · intro hna
            rw [addUsageES_trace]
            simp [emitC, recEv, tick, noAbortEv_append, hna]
          · intro hnd
            rw [addUsageES_emitted]
            simp [emitC, recEv, tick, noDoneC_append, hnd]
        · simp only [if_neg hd]
          refine main _ _ ?_ ?_ ?_ ?_ ?_ ?_ ?_ _ rfl
          · simp [addUsageES_toolRounds, recEv, tick]
          · simp [addUsageES_streamCalls, recEv, tick]
          · simp [addUsageES_messages, recEv, tick]
          · simp [addUsageES_toolsUsed, recEv, tick]
          · exact hBacct c.usage rfl _ (by simp [recEv, tick]) (by simp [recEv, tick])
          · intro hna
            rw [addUsageES_trace]
            simp [recEv, tick, noAbortEv_append, hna]
          · intro hnd
            rw [addUsageES_emitted]
            simpa [recEv, tick] using hnd

theorem foldStart_spec (a : Agent) (calls : List ToolCall) : ∀ es : ES,
    ((calls.foldl (fun es4 tc2 => emitC (toolStartChunk tc2.name (paramsOf a tc2)) es4)
      es)).toolRounds = es.toolRounds ∧
    ((calls.foldl (fun es4 tc2 => emitC (toolStartChunk tc2.name (paramsOf a tc2)) es4)
      es)).streamCalls = es.streamCalls ∧
    ((calls.foldl (fun es4 tc2 => emitC (toolStartChunk tc2.name (paramsOf a tc2)) es4)
      es)).messages = es.messages ∧
    ((calls.foldl (fun es4 tc2 => emitC (toolStartChunk tc2.name (paramsOf a tc2)) es4)
      es)).toolsUsed = es.toolsUsed ∧
    ((calls.foldl (fun es4 tc2 => emitC (toolStartChunk tc2.name (paramsOf a tc2)) es4)
      es)).totalUsage = es.totalUsage ∧
    ((calls.foldl (fun es4 tc2 => emitC (toolStartChunk tc2.name (paramsOf a tc2)) es4)
      es)).time = es.time ∧
    ((calls.foldl (fun es4 tc2 => emitC (toolStartChunk tc2.name (paramsOf a tc2)) es4)
      es)).trace = es.trace ∧
    (noDoneC es.emitted = true →
      noDoneC ((calls.foldl (fun es4 tc2 => emitC (toolStartChunk tc2.name (paramsOf a tc2)) es4)
        es)).emitted = true) := by
  induction calls with
  | nil => intro es; simp
  | cons x rest ih =>
    intro es
    obtain ⟨i1, i2, i3, i4, i5, i6, i7, i8⟩ :=
      ih (emitC (toolStartChunk x.name (paramsOf a x)) es)
    refine ⟨by rw [List.foldl_cons, i1]; simp [emitC], by rw [List.foldl_cons, i2]; simp [emitC],
      by rw [List.foldl_cons, i3]; simp [emitC], by rw [List.foldl_cons, i4]; simp [emitC],
      by rw [List.foldl_cons, i5]; simp [emitC], by rw [List.foldl_cons, i6]; simp [emitC],
      by rw [List.foldl_cons, i7]; simp [emitC], ?_⟩
    intro h
    rw [List.foldl_cons]
    apply i8
    simp [emitC, noDoneC_append, h]

theorem streamRoundLoop_master (o : Oracle) (a : Agent) : ∀ (fuel : Nat) (fc : Str) (es : ES)
    (r : AgentResult) (es2 : ES),
    streamRoundLoop o a fuel fc es = some (r, es2) →
    r.totalUsage = es2.totalUsage ∧
    es2.totalUsage + traceUsage es.trace = es.totalUsage + traceUsage es2.trace ∧
    (noAbortEv es.trace = true → cleanAfter es2.trace = true) ∧
    (finishTerminal o.finalStream = true → noDoneC es.emitted = true →
      donesCarry es2.emitted es2.totalUsage) := by
  intro fuel
  induction fuel with
  | zero =>
    intro fc es r es2 h
    exact absurd h (by simp [streamRoundLoop])
  | succ fuel ih =>
    intro fc es r es2 h
    rw [streamRoundLoop] at h
    by_cases hlt : es.toolRounds < a.maxToolRounds
    · rw [if_pos hlt] at h
      by_cases hab : o.sched es.time = true
      · rw [if_pos hab] at h
        dsimp only at h
        simp only [Option.some.injEq, Prod.mk.injEq] at h
        obtain ⟨hr, he⟩ := h
        subst he
        subst hr
        refine ⟨rfl, ?_, ?_, ?_⟩
        · simp only [emitC, recEv, traceUsage_append, traceUsage_cons, traceUsage_nil,
            evUsage_abortObs]
          abel
        · intro hna
          simp only [emitC, recEv]
          exact cleanAfter_append_abort _ _ hna
        · intro _ hnd
          simp only [emitC, recEv]
          apply donesCarry_append (donesCarry_of_noDone hnd _)
          intro cc hcc hdd
          simp only [List.mem_singleton] at hcc
          subst hcc
          rfl
      · rw [if_neg hab] at h
        dsimp only at h
        have hBu : (recEv (.streamBegin es.time)
            { es with streamCalls := es.streamCalls + 1 }).totalUsage = es.totalUsage := rfl
        have hBtr : (recEv (.streamBegin es.time)
            { es with streamCalls := es.streamCalls + 1 }).trace =
            es.trace ++ [.streamBegin es.time] := rfl
        have hBem : (recEv (.streamBegin es.time)
            { es with streamCalls := es.streamCalls + 1 }).emitted = es.emitted := rfl
        have hBacct : (recEv (.streamBegin es.time)
              { es with streamCalls := es.streamCalls + 1 }).totalUsage + traceUsage es.trace =
            es.totalUsage + traceUsage (recEv (.streamBegin es.time)
              { es with streamCalls := es.streamCalls + 1 }).trace := by
          rw [hBu, hBtr]
          simp only [traceUsage_append, traceUsage_cons, traceUsage_nil, evUsage_streamBegin]
          abel
        have hBna : noAbortEv es.trace = true → noAbortEv (recEv (.streamBegin es.time)
            { es with streamCalls := es.streamCalls + 1 }).trace = true := by
          intro hna
          rw [hBtr]
          simp [noAbortEv_append, hna]
        cases hrc : runChunks o fc (o.streams es.streamCalls) {}
            (recEv (.streamBegin es.time) { es with streamCalls := es.streamCalls + 1 }) with
        | earlyRet r1 esr =>
          rw [hrc] at h
          dsimp only at h
          simp only [Option.some.injEq, Prod.mk.injEq] at h
          obtain ⟨hr, he⟩ := h
          subst he
          subst hr
          obtain ⟨e1, e2, e3, e4, e5, e6, e7, e8, e9, e10⟩ :=
            (runChunks_master o fc (o.streams es.streamCalls) {} _).2 r1 _ hrc
          refine ⟨e3, usage_delta_trans hBacct e8, ?_, ?_⟩
          · intro hna
            exact e9 (hBna hna)
          · intro _ hnd
            apply e10
            rw [hBem]
            exact hnd
        | streamDone rst esm =>
          rw [hrc] at h
          dsimp only at h
          obtain ⟨s1, s2, s3, s4, s5, s6, s7⟩ :=
            (runChunks_master o fc (o.streams es.streamCalls) {} _).1 rst esm hrc
          have hmAcc : esm.totalUsage + traceUsage es.trace =
              es.totalUsage + traceUsage esm.trace := usage_delta_trans hBacct s5
          have hmNa : noAbortEv es.trace = true → noAbortEv esm.trace = true := by
            intro hna
            exact s6 (hBna hna)
          have hmNd : noDoneC es.emitted = true → noDoneC esm.emitted = true := by
            intro hnd
            apply s7
            rw [hBem]
            exact hnd
          cases htc : rst.toolCalls with
          | none =>
            rw [htc] at h
            dsimp only at h
            obtain ⟨q1, q2, q3, q4⟩ := ih fc esm r es2 h
            exact ⟨q1, usage_delta_trans hmAcc q2, fun hna => q3 (hmNa hna),
              fun hft hnd => q4 hft (hmNd hnd)⟩
          | some l =>
            cases l with
            | nil =>
              rw [htc] at h
              dsimp only at h
              obtain ⟨q1, q2, q3, q4⟩ := ih fc esm r es2 h
              exact ⟨q1, usage_delta_trans hmAcc q2, fun hna => q3 (hmNa hna),
                fun hft hnd => q4 hft (hmNd hnd)⟩
            | cons tc tcs =>
              rw [htc] at h
              dsimp only at h
              obtain ⟨f1, f2, f3, f4, f5, f6, f7, f8⟩ := foldStart_spec a (tc :: tcs) esm
              obtain ⟨t1, t2, t3, t4, t5, t6, t7, t8⟩ :=
                handleToolCalls_spec o true (tc :: tcs)
                  ((tc :: tcs).foldl
                    (fun es4 tc2 => emitC (toolStartChunk tc2.name (paramsOf a tc2)) es4) esm)
              have h3Acc : ({ handleToolCalls o true (tc :: tcs)
                    ((tc :: tcs).foldl
                      (fun es4 tc2 => emitC (toolStartChunk tc2.name (paramsOf a tc2)) es4) esm)
                  with toolRounds := (handleToolCalls o true (tc :: tcs)
                    ((tc :: tcs).foldl
                      (fun es4 tc2 => emitC (toolStartChunk tc2.name (paramsOf a tc2)) es4)
                        esm)).toolRounds + 1 } : ES).totalUsage + traceUsage es.trace =
                  es.totalUsage + traceUsage ({ handleToolCalls o true (tc :: tcs)
                    ((tc :: tcs).foldl
                      (fun es4 tc2 => emitC (toolStartChunk tc2.name (paramsOf a tc2)) es4) esm)
                  with toolRounds := (handleToolCalls o true (tc :: tcs)
                    ((tc :: tcs).foldl
                      (fun es4 tc2 => emitC (toolStartChunk tc2.name (paramsOf a tc2)) es4)
                        esm)).toolRounds + 1 } : ES).trace := by
                show (handleToolCalls o true (tc :: tcs) _).totalUsage + traceUsage es.trace =
                  es.totalUsage + traceUsage (handleToolCalls o true (tc :: tcs) _).trace
                rw [t4, t7, f5, f7]
                simp only [traceUsage_append, traceUsage_cons, traceUsage_nil, evUsage_toolsEv]
                rw [add_zero]
                exact hmAcc
              have h3Na : noAbortEv es.trace = true → noAbortEv ({ handleToolCalls o true
                    (tc :: tcs) ((tc :: tcs).foldl
                      (fun es4 tc2 => emitC (toolStartChunk tc2.name (paramsOf a tc2)) es4) esm)
                  with toolRounds := (handleToolCalls o true (tc :: tcs)
                    ((tc :: tcs).foldl
                      (fun es4 tc2 => emitC (toolStartChunk tc2.name (paramsOf a tc2)) es4)
                        esm)).toolRounds + 1 } : ES).trace = true := by
                intro hna
                show noAbortEv (handleToolCalls o true (tc :: tcs) _).trace = true
                rw [t7, f7]
                simp [noAbortEv_append, hmNa hna]
              have h3Nd : noDoneC es.emitted = true → noDoneC ({ handleToolCalls o true
                    (tc :: tcs) ((tc :: tcs).foldl
                      (fun es4 tc2 => emitC (toolStartChunk tc2.name (paramsOf a tc2)) es4) esm)
                  with toolRounds := (handleToolCalls o true (tc :: tcs)
                    ((tc :: tcs).foldl
                      (fun es4 tc2 => emitC (toolStartChunk tc2.name (paramsOf a tc2)) es4)
                        esm)).toolRounds + 1 } : ES).emitted = true := by
                intro hnd
                show noDoneC (handleToolCalls o true (tc :: tcs) _).emitted = true
                rw [t8]
                simp only [if_pos rfl]
                rw [noDoneC_append, Bool.and_eq_true]
                refine ⟨f8 (hmNd hnd), ?_⟩
                simp [noDoneC, List.all_map, Function.comp]
              obtain ⟨q1, q2, q3, q4⟩ := ih fc _ r es2 h
              exact ⟨q1, usage_delta_trans h3Acc q2, fun hna => q3 (h3Na hna),
                fun hft hnd => q4 hft (h3Nd hnd)⟩
    · rw [if_neg hlt] at h
      by_cases hab : o.sched es.time = true
      · rw [if_pos hab] at h
        dsimp only at h
        simp only [Option.some.injEq, Prod.mk.injEq] at h
        obtain ⟨hr, he⟩ := h
        subst he
        subst hr
        refine ⟨rfl, ?_, ?_, ?_⟩
        · simp only [emitC, recEv, traceUsage_append, traceUsage_cons, traceUsage_nil,
            evUsage_abortObs]
          abel
        · intro hna
          simp only [emitC, recEv]
          exact cleanAfter_append_abort _ _ hna
        · intro _ hnd
          simp only [emitC, recEv]
          apply donesCarry_append (donesCarry_of_noDone hnd _)
          intro cc hcc hdd
          simp only [List.mem_singleton] at hcc
          subst hcc
          rfl
      · rw [if_neg hab] at h
        dsimp only at h
        simp only [Option.some.injEq, Prod.mk.injEq] at h
        obtain ⟨hr, he⟩ := h
        subst he
        subst hr
        obtain ⟨g1, g2, g3, g4, g5, g6, g7⟩ := runFinalChunks_master o o.finalStream fc
          (recEv (.streamBegin (pushMsg finalNudgeMsg es).time)
            { pushMsg finalNudgeMsg es with
                streamCalls := (pushMsg finalNudgeMsg es).streamCalls + 1 })
        have h2u : (recEv (.streamBegin (pushMsg finalNudgeMsg es).time)
            { pushMsg finalNudgeMsg es with
                streamCalls := (pushMsg finalNudgeMsg es).streamCalls + 1 }).totalUsage =
            es.totalUsage := rfl
        have h2tr : (recEv (.streamBegin (pushMsg finalNudgeMsg es).time)
            { pushMsg finalNudgeMsg es with
                streamCalls := (pushMsg finalNudgeMsg es).streamCalls + 1 }).trace =
            es.trace ++ [.streamBegin es.time] := rfl
        have h2em : (recEv (.streamBegin (pushMsg finalNudgeMsg es).time)
            { pushMsg finalNudgeMsg es with
                streamCalls := (pushMsg finalNudgeMsg es).streamCalls + 1 }).emitted =
            es.emitted := rfl
        have h2acct : (recEv (.streamBegin (pushMsg finalNudgeMsg es).time)
              { pushMsg finalNudgeMsg es with
                  streamCalls := (pushMsg finalNudgeMsg es).streamCalls + 1 }).totalUsage +
              traceUsage es.trace =
            es.totalUsage + traceUsage (recEv (.streamBegin (pushMsg finalNudgeMsg es).time)
              { pushMsg finalNudgeMsg es with
                  streamCalls := (pushMsg finalNudgeMsg es).streamCalls + 1 }).trace := by
          rw [h2u, h2tr]
          simp only [traceUsage_append, traceUsage_cons, traceUsage_nil, evUsage_streamBegin]
          abel
        refine ⟨rfl, usage_delta_trans h2acct g5, ?_, ?_⟩
        · intro hna
          apply g6
          rw [h2tr]
          simp [noAbortEv_append, hna]
        · intro hft hnd
          apply g7 hft
          rw [h2em]
          exact hnd

theorem streamRoundLoop_rounds (o : Oracle) (a : Agent) : ∀ (fuel : Nat) (fc : Str) (es : ES)
    (r : AgentResult) (es2 : ES),
    streamRoundLoop o a fuel fc es = some (r, es2) →
    r.toolRounds = es2.toolRounds ∧
    (es.toolRounds ≤ a.maxToolRounds → r.toolRounds ≤ a.maxToolRounds) := by
  intro fuel
  induction fuel with
  | zero =>
    intro fc es r es2 h
    exact absurd h (by simp [streamRoundLoop])
  | succ fuel ih =>
    intro fc es r es2 h
    rw [streamRoundLoop] at h
    by_cases hlt : es.toolRounds < a.maxToolRounds
    · rw [if_pos hlt] at h
      by_cases hab : o.sched es.time = true
      · rw [if_pos hab] at h
        dsimp only at h
        simp only [Option.some.injEq, Prod.mk.injEq] at h
        obtain ⟨hr, he⟩ := h
        subst he
        subst hr
        refine ⟨rfl, fun _ => ?_⟩
        show (recEv (.abortObs es.time) es).toolRounds ≤ a.maxToolRounds
        simp only [recEv]
        omega
      · rw [if_neg hab] at h
        dsimp only at h
        cases hrc : runChunks o fc (o.streams es.streamCalls) {}
            (recEv (.streamBegin es.time) { es with streamCalls := es.streamCalls + 1 }) with
        | earlyRet r1 esr =>
          rw [hrc] at h
          dsimp only at h
          simp only [Option.some.injEq, Prod.mk.injEq] at h
          obtain ⟨hr, he⟩ := h
          subst he
          subst hr
          obtain ⟨e1, e2, e3, e4, e5, e6, e7, e8, e9, e10⟩ :=
            (runChunks_master o fc (o.streams es.streamCalls) {} _).2 r1 _ hrc
          have hBr : (recEv (.streamBegin es.time)
              { es with streamCalls := es.streamCalls + 1 }).toolRounds = es.toolRounds := rfl
          refine ⟨?_, fun hle => ?_⟩
          · rw [e1, e4]
          · rw [e1, hBr]
            omega
        | streamDone rst esm =>
          rw [hrc] at h
          dsimp only at h
          obtain ⟨s1, s2, s3, s4, s5, s6, s7⟩ :=
            (runChunks_master o fc (o.streams es.streamCalls) {} _).1 rst esm hrc
          have hBr : (recEv (.streamBegin es.time)
              { es with streamCalls := es.streamCalls + 1 }).toolRounds = es.toolRounds := rfl
          cases htc : rst.toolCalls with
          | none =>
            rw [htc] at h
            dsimp only at h
            obtain ⟨q1, q2⟩ := ih fc esm r es2 h
            refine ⟨q1, fun _ => q2 ?_⟩
            rw [s1, hBr]
            omega
          | some l =>
            cases l with
            | nil =>
              rw [htc] at h
              dsimp only at h
              obtain ⟨q1, q2⟩ := ih fc esm r es2 h
              refine ⟨q1, fun _ => q2 ?_⟩
              rw [s1, hBr]
              omega
            | cons tc tcs =>
              rw [htc] at h
              dsimp only at h
              obtain ⟨f1, f2, f3, f4, f5, f6, f7, f8⟩ := foldStart_spec a (tc :: tcs) esm
              obtain ⟨t1, t2, t3, t4, t5, t6, t7, t8⟩ :=
                handleToolCalls_spec o true (tc :: tcs)
                  ((tc :: tcs).foldl
                    (fun es4 tc2 => emitC (toolStartChunk tc2.name (paramsOf a tc2)) es4) esm)
              obtain ⟨q1, q2⟩ := ih fc _ r es2 h
              refine ⟨q1, fun _ => q2 ?_⟩
              show (handleToolCalls o true (tc :: tcs) _).toolRounds + 1 ≤ a.maxToolRounds
              rw [t3, f1, s1, hBr]
              omega
    · rw [if_neg hlt] at h
      by_cases hab : o.sched es.time = true
      · rw [if_pos hab] at h
        dsimp only at h
        simp only [Option.some.injEq, Prod.mk.injEq] at h
        obtain ⟨hr, he⟩ := h
        subst he
        subst hr
        refine ⟨rfl, fun hle => ?_⟩
        show (recEv (.abortObs es.time) es).toolRounds ≤ a.maxToolRounds
        simp only [recEv]
        omega
      · rw [if_neg hab] at h
        dsimp only at h
        simp only [Option.some.injEq, Prod.mk.injEq] at h
        obtain ⟨hr, he⟩ := h
        subst he
        subst hr
        obtain ⟨g1, g2, g3, g4, g5, g6, g7⟩ := runFinalChunks_master o o.finalStream fc
          (recEv (.streamBegin (pushMsg finalNudgeMsg es).time)
            { pushMsg finalNudgeMsg es with
                streamCalls := (pushMsg finalNudgeMsg es).streamCalls + 1 })
        have h2r : (recEv (.streamBegin (pushMsg finalNudgeMsg es).time)
            { pushMsg finalNudgeMsg es with
                streamCalls := (pushMsg finalNudgeMsg es).streamCalls + 1 }).toolRounds =
            es.toolRounds := rfl
        refine ⟨?_, fun hle => ?_⟩
        · show (runFinalChunks o o.finalStream fc _).2.toolRounds =
            (runFinalChunks o o.finalStream fc _).2.toolRounds
          rfl
        · show (runFinalChunks o o.finalStream fc _).2.toolRounds ≤ a.maxToolRounds
          rw [g1, h2r]
          omega

theorem executeStreamModel_master (o : Oracle) (a : Agent) (um : Str) (fuel : Nat)
    (out : StreamOut) (h : executeStreamModel o a um fuel = some out) :
    out.result.totalUsage = out.agent.totalUsage ∧
    out.result.totalUsage = a.totalUsage + traceUsage out.trace ∧
    out.result.toolRounds ≤ a.maxToolRounds ∧
    cleanAfter out.trace = true ∧
    (finishTerminal o.finalStream = true → donesCarry out.emitted out.result.totalUsage) := by
  rw [executeStreamModel] at h
  by_cases hab : o.sched 0 = true
  · rw [if_pos hab] at h
    simp only [Option.some.injEq] at h
    subst h
    refine ⟨rfl, ?_, by simp, rfl, ?_⟩
    · simp [traceUsage_cons, traceUsage_nil]
    · intro _
      intro c hc hd
      simp only [List.mem_singleton] at hc
      subst hc
      rfl
  · rw [if_neg hab] at h
    dsimp only at h
    cases hsr : streamRoundLoop o a fuel [] (preLoop o a true um) with
    | none =>
      rw [hsr] at h
      exact absurd h (by simp)
    | some pr =>
      obtain ⟨r, es2⟩ := pr
      rw [hsr] at h
      dsimp only at h
      simp only [Option.some.injEq] at h
      subst h
      obtain ⟨p1, p2, p3, p4, p5⟩ := preLoop_frame o a true um
      obtain ⟨m1, m2, m3, m4⟩ := streamRoundLoop_master o a fuel [] (preLoop o a true um)
        r es2 hsr
      obtain ⟨n1, n2⟩ := streamRoundLoop_rounds o a fuel [] (preLoop o a true um) r es2 hsr
      refine ⟨m1, ?_, ?_, m3 p4, ?_⟩
      · have key : es2.totalUsage + traceUsage (preLoop o a true um).trace =
            (a.totalUsage + traceUsage es2.trace) +
              traceUsage (preLoop o a true um).trace := by
          rw [m2, p3]
          abel
        rw [m1]
        exact add_right_cancel key
      · apply n2
        rw [p1]
        omega
      · intro hft
        rw [m1]
        exact m4 hft p5

theorem emitIf_messages (stream : Bool) (c : AgentStreamChunk) (es : ES) :
    (emitIf stream c es).messages = es.messages := by
  cases stream <;> simp [emitIf, emitC]

theorem spliceShape (ms : List ChatMessage) (u amsg t ev : ChatMessage)
    (hu : u.role = Role.user) (ha : amsg.role = Role.assistant) (ht : t.role = Role.tool)
    (xs : List ChatMessage) (hxs : xs = ms ++ [u, amsg, t]) :
    List.take (match findIndexQ (fun m => decide (m.role = Role.user)) xs.reverse with
      | none => xs.length
      | some k => xs.length - 1 - k) xs ++
      ev :: List.drop (match findIndexQ (fun m => decide (m.role = Role.user)) xs.reverse with
      | none => xs.length
      | some k => xs.length - 1 - k) xs =
    ms ++ ev :: u :: amsg :: [t] := by
  subst hxs
  have hrev : (ms ++ [u, amsg, t]).reverse = t :: amsg :: u :: ms.reverse := by
    simp
  have hfi : findIndexQ (fun m => decide (m.role = Role.user))
      ((ms ++ [u, amsg, t]).reverse) = some 2 := by
    rw [hrev]
    simp [findIndexQ, ht, ha, hu]
  rw [hfi]
  have hlen : (ms ++ [u, amsg, t]).length = ms.length + 3 := by
    simp
  rw [hlen]
  have hidx2 : ms.length + 3 - 1 - 2 = ms.length := by omega
  dsimp only
  rw [hidx2]
  rw [List.take_left, List.drop_left]

set_option maxHeartbeats 1600000 in
theorem pipelineShape (o : Oracle) (a : Agent) (stream : Bool) (um : Str) (es : ES)
    (em : Str) (hm : getEmbeddingModel o = some em)
    (htool : "semantic_search_messages".toList ∈ o.toolNames)
    (hsucc : (o.exec (pipelineForced o a um)).success = true)
    (htruthy : jsTruthy (o.exec (pipelineForced o a um)).result = true)
    (ms : List ChatMessage) (u : ChatMessage) (hmsgs : es.messages = ms ++ [u])
    (hu : u.role = .user) :
    (runSemanticPipelineM o a stream um es).1 = true ∧
    (runSemanticPipelineM o a stream um es).2.messages =
      ms ++ ({ role := .system
             , content := mkEvidenceBlock (pipelinePlan o um).query (pipelineTk o um)
                 (pipelineCl o a um) (o.exec (pipelineForced o a um)).result } : ChatMessage) ::
        u :: ({ role := .assistant, content := []
              , tool_calls := some [pipelineForced o a um] } : ChatMessage) ::
        [toolMsgOf (pipelineForced o a um) (o.exec (pipelineForced o a um))] := by
  unfold runSemanticPipelineM
  rw [hm]
  cases hr : o.rewriteResp with
  | none =>
    simp only [pipelineForced, pipelineParams, pipelineTk, pipelineCl, pipelinePlan,
      toolMsgOf, hr] at hsucc htruthy ⊢
    rw [if_pos htool]
    rw [if_pos ⟨hsucc, htruthy⟩]
    refine ⟨rfl, ?_⟩
    refine (spliceShape ms u _ _ _ hu ?ha ?ht _ ?hxs).trans (by rfl)
    case ha => rfl
    case ht => rfl
    case hxs =>
      simp [pushMsg, emitIf_messages, tick, recEv, hmsgs]
  | some resp =>
    simp only [pipelineForced, pipelineParams, pipelineTk, pipelineCl, pipelinePlan,
      toolMsgOf, hr] at hsucc htruthy ⊢
    rw [if_pos htool]
    rw [if_pos ⟨hsucc, htruthy⟩]
    refine ⟨rfl, ?_⟩
    refine (spliceShape ms u _ _ _ hu ?ha ?ht _ ?hxs).trans (by rfl)
    case ha => rfl
    case ht => rfl
    case hxs =>
      simp [pushMsg, emitIf_messages, tick, recEv, hmsgs]

theorem preLoopAuto (o : Oracle) (a : Agent) (stream : Bool) (um : Str)
    (hemb : getEmbeddingModel o = none) (hauto : shouldAutoSemanticSearch um = true) :
    (preLoop o a stream um).toolsUsed = [] ∧
    (preLoop o a stream um).toolRounds = 0 ∧
    (preLoop o a stream um).totalUsage = a.totalUsage ∧
    (∀ ev, (runAutoSemanticSearchM o um (initES a um)).1 = some ev →
      (preLoop o a stream um).messages =
        (({ role := .system, content := a.systemPrompt } : ChatMessage) ::
            a.historyMessages) ++
          ({ role := .system, content := ev } : ChatMessage) ::
          [{ role := .user, content := um }]) ∧
    ((runAutoSemanticSearchM o um (initES a um)).1 = none →
      (preLoop o a stream um).messages = (initES a um).messages) := by
  have hpipe : runSemanticPipelineM o a stream um (initES a um) = (false, initES a um) := by
    unfold runSemanticPipelineM
    rw [hemb]
  obtain ⟨a1, a2, a3, a4, a5, a6, a7, a8⟩ := auto_frame o um (initES a um)
  unfold preLoop
  rw [hpipe]
  dsimp only
  rw [if_pos (by simp [hauto])]
  have hsplitA2 : runAutoSemanticSearchM o um (initES a um) =
      ((runAutoSemanticSearchM o um (initES a um)).1,
       (runAutoSemanticSearchM o um (initES a um)).2) := rfl
  rw [hsplitA2]
  dsimp only
  cases hev : (runAutoSemanticSearchM o um (initES a um)).1 with
  | none =>
    refine ⟨?_, ?_, ?_, ?_, fun _ => ?_⟩
    · rw [a4]; rfl
    · rw [a1]; rfl
    · rw [a5]; rfl
    · intro ev hev2
      cases hev2
    · exact a3
  | some ev =>
    refine ⟨?_, ?_, ?_, ?_, ?_⟩
    · show (runAutoSemanticSearchM o um (initES a um)).2.toolsUsed = []
      rw [a4]; rfl
    · show (runAutoSemanticSearchM o um (initES a um)).2.toolRounds = 0
      rw [a1]; rfl
    · show (runAutoSemanticSearchM o um (initES a um)).2.totalUsage = a.totalUsage
      rw [a5]; rfl
    · intro ev2 hev2
      injection hev2 with hev3
      subst hev3
      show List.take _ (runAutoSemanticSearchM o um (initES a um)).2.messages ++ _ ::
          List.drop _ (runAutoSemanticSearchM o um (initES a um)).2.messages = _
      rw [a3]
      show List.take ((initES a um).messages.length - 1) (initES a um).messages ++ _ ::
          List.drop ((initES a um).messages.length - 1) (initES a um).messages = _
      have hm : (initES a um).messages =
          (({ role := .system, content := a.systemPrompt } : ChatMessage) ::
            a.historyMessages) ++ [{ role := .user, content := um }] := by
        show ({ role := .system, content := a.systemPrompt } : ChatMessage) ::
            (a.historyMessages ++ [{ role := .user, content := um }]) = _
        rw [List.cons_append]
      rw [hm]
      have hlen : ((({ role := .system, content := a.systemPrompt } : ChatMessage) ::
            a.historyMessages) ++ [({ role := .user, content := um } : ChatMessage)]).length - 1 =
          (({ role := .system, content := a.systemPrompt } : ChatMessage) ::
            a.historyMessages).length := by
        simp
      rw [hlen, List.take_left, List.drop_left]
    · intro hev2
      cases hev2

set_option maxHeartbeats 1600000 in
theorem pipelineShapeFail (o : Oracle) (a : Agent) (stream : Bool) (um : Str) (es : ES)
    (em : Str) (hm : getEmbeddingModel o = some em)
    (htool : "semantic_search_messages".toList ∈ o.toolNames)
    (hfail : ¬((o.exec (pipelineForced o a um)).success = true ∧
      jsTruthy (o.exec (pipelineForced o a um)).result = true)) :
    (runSemanticPipelineM o a stream um es).1 = true ∧
    (runSemanticPipelineM o a stream um es).2.messages =
      es.messages ++ ({ role := .assistant, content := []
                      , tool_calls := some [pipelineForced o a um] } : ChatMessage) ::
        [toolMsgOf (pipelineForced o a um) (o.exec (pipelineForced o a um))] := by
  unfold runSemanticPipelineM
  rw [hm]
  cases hr : o.rewriteResp with
  | none =>
    simp only [pipelineForced, pipelineParams, pipelineTk, pipelineCl, pipelinePlan,
      toolMsgOf, hr] at hfail ⊢
    rw [if_pos htool]
    rw [if_neg hfail]
    refine ⟨rfl, ?_⟩
    simp [pushMsg, emitIf_messages, tick, recEv]
  | some resp =>
    simp only [pipelineForced, pipelineParams, pipelineTk, pipelineCl, pipelinePlan,
      toolMsgOf, hr] at hfail ⊢
    rw [if_pos htool]
    rw [if_neg hfail]
    refine ⟨rfl, ?_⟩
    simp [pushMsg, emitIf_messages, tick, recEv]

-- ==================== The claims ====================

/-- C1: for every invocation of `execute` or `executeStream`, the
`toolRounds` of the returned result is at most the configured round budget
`maxToolRounds`, which defaults to 5 when the configuration leaves it
unset. -/
theorem claim_C1 :
    (∀ (o : Oracle) (a : Agent) (um : Str),
      (executeModel o a um).1.toolRounds ≤ a.maxToolRounds) ∧
    (∀ (o : Oracle) (a : Agent) (um : Str) (fuel : Nat) (out : StreamOut),
      executeStreamModel o a um fuel = some out →
      out.result.toolRounds ≤ a.maxToolRounds) ∧
    (∀ (sys : Str) (hist : List ChatMessage) (mml : Option Int) (tf : Option Js),
      (mkAgent none sys hist mml tf).maxToolRounds = 5) := by
  refine ⟨?_, ?_, fun _ _ _ _ => rfl⟩
  · intro o a um
    exact (executeModel_master o a um).2.2.1
  · intro o a um fuel out h
    exact (executeStreamModel_master o a um fuel out h).2.2.1

theorem claim_C1_witness :
    executeStreamModel wOracle agDefault "hi".toList 5 = some wC1Out ∧
    wC1Out.result.toolRounds ≤ agDefault.maxToolRounds :=
  ⟨rfl, claim_C1.2.1 wOracle agDefault "hi".toList 5 wC1Out rfl⟩

/-- C2: starting from a zero cumulative total, the `totalUsage` of the
returned result equals the component-wise sum of the usage delivered by
every model interaction of that execution (blocking-call usage records and
streamed per-delta usage records, a missing record contributing zero,
the forced semantic-pipeline rewrite call included via its `model` trace
event), and the terminal done chunk carries exactly that total. -/
theorem claim_C2 :
    (∀ (o : Oracle) (a : Agent) (um : Str), a.totalUsage = 0 →
      (executeModel o a um).1.totalUsage = traceUsage (executeModel o a um).2.2) ∧
    (∀ (o : Oracle) (a : Agent) (um : Str) (fuel : Nat) (out : StreamOut),
      a.totalUsage = 0 → executeStreamModel o a um fuel = some out →
      out.result.totalUsage = traceUsage out.trace ∧
      (finishTerminal o.finalStream = true →
        donesCarry out.emitted out.result.totalUsage)) := by
  refine ⟨?_, ?_⟩
  · intro o a um h0
    have h := (executeModel_master o a um).2.1
    rw [h, h0, zero_add]
  · intro o a um fuel out h0 hrun
    obtain ⟨m1, m2, m3, m4, m5⟩ := executeStreamModel_master o a um fuel out hrun
    refine ⟨?_, m5⟩
    rw [m2, h0, zero_add]

theorem claim_C2_witness :
    agDefault.totalUsage = 0 ∧
    executeStreamModel w2Oracle agDefault "hi".toList 5 = some wC2Out ∧
    wC2Out.result.totalUsage = traceUsage wC2Out.trace ∧
    finishTerminal w2Oracle.finalStream = true ∧
    donesCarry wC2Out.emitted wC2Out.result.totalUsage :=
  ⟨rfl, rfl, (claim_C2.2 w2Oracle agDefault "hi".toList 5 wC2Out rfl rfl).1, rfl,
    (claim_C2.2 w2Oracle agDefault "hi".toList 5 wC2Out rfl rfl).2 rfl⟩

/-- C3 (refuted): one streaming call whose deltas are
`"<think>a</think>X"` then `"Y"` (then a bare finish event).  The full
accumulated buffer is `"<think>a</think>XY"`, whose thinking span removed
leaves `"XY"`; but the consumer receives `"X"` and then `"XY"` — `"XXY"`
concatenated — so the character `X` is forwarded twice and the forwarded
concatenation differs from the stripped buffer. -/
theorem claim_C3_counterexample :
    contentConcat c3Emitted = "XXY".toList ∧
    removeToolSpans ("<think>a</think>XY".toList.length + 1)
      (extractThinkingContent "<think>a</think>XY".toList).2 = "XY".toList ∧
    contentConcat c3Emitted ≠
      removeToolSpans ("<think>a</think>XY".toList.length + 1)
        (extractThinkingContent "<think>a</think>XY".toList).2 := by
  refine ⟨by decide, by decide, by decide⟩

/-- C4 (refuted): the non-streaming `execute` with reply
`"<think>reasoning</think>Here is the answer."`, no native tool calls and
no embedded markup, returns the raw reply — the thinking span is parsed
(`extractThinkingContent` strips it) but the stripped text is not what is
returned. -/
theorem claim_C4_counterexample :
    (executeModel c4Oracle agDefault "hi".toList).1.content = c4Reply ∧
    (extractThinkingContent c4Reply).2 = "Here is the answer.".toList ∧
    (executeModel c4Oracle agDefault "hi".toList).1.content ≠
      "Here is the answer.".toList := by
  refine ⟨by decide, by decide, by decide⟩

/-- C5 (amended): the cumulative total is zeroed when the instance is
constructed, not at the start of each invocation; each invocation returns
the instance total it started from plus the usage delivered during that
execution, so a second call on the same instance reports the sum over both
executions. -/
theorem claim_C5 :
    (∀ (cfg : Option Nat) (sys : Str) (hist : List ChatMessage) (mml : Option Int)
        (tf : Option Js), (mkAgent cfg sys hist mml tf).totalUsage = 0) ∧
    (∀ (o : Oracle) (a : Agent) (um : Str),
      (executeModel o a um).1.totalUsage = a.totalUsage + traceUsage (executeModel o a um).2.2 ∧
      (executeModel o a um).2.1.totalUsage = (executeModel o a um).1.totalUsage) ∧
    (∀ (o : Oracle) (a : Agent) (um : Str) (fuel : Nat) (out : StreamOut),
      executeStreamModel o a um fuel = some out →
      out.result.totalUsage = a.totalUsage + traceUsage out.trace) := by
  refine ⟨fun _ _ _ _ _ => rfl, ?_, ?_⟩
  · intro o a um
    exact ⟨(executeModel_master o a um).2.1, ((executeModel_master o a um).1).symm⟩
  · intro o a um fuel out h
    exact (executeStreamModel_master o a um fuel out h).2.1

theorem claim_C5_witness :
    executeStreamModel w5Oracle agDefault "hi".toList 5 = some wC5Out ∧
    wC5Out.result.totalUsage = agDefault.totalUsage + traceUsage wC5Out.trace :=
  ⟨rfl, claim_C5.2.2 w5Oracle agDefault "hi".toList 5 wC5Out rfl⟩

/-- C5 (refutation of the per-invocation reset): with every model call
reporting usage (1,2,3), the second of two consecutive `execute` calls on
the same instance returns total (2,4,6) — the sum over both executions —
while the usage delivered during the second execution alone is (1,2,3). -/
theorem claim_C5_counterexample :
    c5Run2.1.totalUsage = ⟨2, 4, 6⟩ ∧
    traceUsage c5Run2.2.2 = ⟨1, 2, 3⟩ ∧
    c5Run2.1.totalUsage ≠ traceUsage c5Run2.2.2 := by
  refine ⟨by decide, by decide, by decide⟩

/-- C6: whenever the semantic pipeline runs (an embedding model is
configured and the semantic-search tool is in the catalog) and its forced
`semantic_search_messages` call succeeds with a truthy (non-empty) result,
the system-role evidence message lands immediately before the most recent
user-role message of the transcript — the trailing user message — and not
at the transcript's tail (the assistant/tool transcription of the forced
call sits after it). -/
theorem claim_C6 (o : Oracle) (a : Agent) (stream : Bool) (um : Str) (es : ES)
    (em : Str) (hm : getEmbeddingModel o = some em)
    (htool : "semantic_search_messages".toList ∈ o.toolNames)
    (hsucc : (o.exec (pipelineForced o a um)).success = true)
    (htruthy : jsTruthy (o.exec (pipelineForced o a um)).result = true)
    (ms : List ChatMessage) (u : ChatMessage) (hmsgs : es.messages = ms ++ [u])
    (hu : u.role = .user) :
    (runSemanticPipelineM o a stream um es).1 = true ∧
    (runSemanticPipelineM o a stream um es).2.messages =
      ms ++ ({ role := .system
             , content := mkEvidenceBlock (pipelinePlan o um).query (pipelineTk o um)
                 (pipelineCl o a um) (o.exec (pipelineForced o a um)).result } : ChatMessage) ::
        u :: ({ role := .assistant, content := []
              , tool_calls := some [pipelineForced o a um] } : ChatMessage) ::
        [toolMsgOf (pipelineForced o a um) (o.exec (pipelineForced o a um))] :=
  pipelineShape o a stream um es em hm htool hsucc htruthy ms u hmsgs hu

theorem claim_C6_witness :
    esW.messages = [sysMsgW] ++ [userMsgW] ∧
    (runSemanticPipelineM pipeOracle agDefault false "q".toList esW).2.messages =
      [sysMsgW] ++ pipeEvMsgW :: userMsgW :: pipeAsstMsgW ::
        [toolMsgOf pipeForcedW (pipeOracle.exec pipeForcedW)] :=
  ⟨rfl, (claim_C6 pipeOracle agDefault false "q".toList esW "bge".toList rfl (by decide)
    rfl rfl [sysMsgW] userMsgW rfl rfl).2⟩

/-- C7 (amended): at the suspension points that carry a cancellation check
(entry, round start, streaming-delta receipt, the streaming exhaustion
tail), an observed cancellation makes the execution return at once and no
model or tool call is issued after the observation (`cleanAfter`); the
original claim fails on the non-streaming budget-exhaustion path, whose
forced final model call carries no check (see the counterexample). -/
theorem claim_C7 :
    (∀ (o : Oracle) (a : Agent) (um : Str), cleanAfter (executeModel o a um).2.2 = true) ∧
    (∀ (o : Oracle) (a : Agent) (um : Str) (fuel : Nat) (out : StreamOut),
      executeStreamModel o a um fuel = some out → cleanAfter out.trace = true) := by
  refine ⟨?_, ?_⟩
  · intro o a um
    exact (executeModel_master o a um).2.2.2
  · intro o a um fuel out h
    exact (executeStreamModel_master o a um fuel out h).2.2.2.1

theorem claim_C7_witness :
    executeStreamModel w7Oracle agDefault "hi".toList 5 = some wC7Out ∧
    cleanAfter wC7Out.trace = true :=
  ⟨rfl, claim_C7.2 w7Oracle agDefault "hi".toList 5 wC7Out rfl⟩

/-- C7 (refutation of the original): budget 1, one tool round, and an
abort signal that rises at instant 2 — during the tool dispatch, so before
the exhaustion path's forced final model call.  That call is issued at
instant 2 with the signal already up (`allCallsBeforeAbort` is false),
while no abort observation ever enters the trace (`cleanAfter` holds
vacuously): the exhaustion path of `execute` checks nothing. -/
theorem claim_C7_counterexample :
    c7Oracle.sched 2 = true ∧
    allCallsBeforeAbort c7Oracle.sched c7Run.2.2 = false ∧
    cleanAfter c7Run.2.2 = true := by
  refine ⟨by decide, by decide, by decide⟩

/-- C8 (amended): `parseToolCallTags` does not distinguish the two cases —
it returns `none` both when the text holds no `<tool_call>` markup at all
and when markup is present but no block parses into a valid call (the
filter keeps only parsable blocks and an empty yield maps to `none`); the
distinction the orchestrator actually uses comes from the separate
`hasToolCallTags` test. -/
theorem claim_C8 :
    (∀ s : Str, hasToolCallTags s = false → parseToolCallTags s = none) ∧
    (∀ s : Str, (enumFrom 0 (toolBlocks (s.length + 1) s)).filterMap
        (fun p => fallbackCallOfBlock p.1 p.2) = [] → parseToolCallTags s = none) ∧
    hasToolCallTags c8NoMarkup = false ∧
    hasToolCallTags c8Garbage = true ∧
    parseToolCallTags c8NoMarkup = none ∧
    parseToolCallTags c8Garbage = none := by
  have part2 : ∀ s : Str, (enumFrom 0 (toolBlocks (s.length + 1) s)).filterMap
      (fun p => fallbackCallOfBlock p.1 p.2) = [] → parseToolCallTags s = none := by
    intro s h
    simp [parseToolCallTags, h]
  refine ⟨?_, part2, by decide, by decide, by decide, by decide⟩
  intro s h
  have hf : findSubCI toolOpenT s = none := by
    unfold hasToolCallTags containsCI at h
    cases hfs : findSubCI toolOpenT s with
    | none => rfl
    | some i =>
      rw [hfs] at h
      simp at h
  have hb : toolBlocks (s.length + 1) s = [] := by
    simp [toolBlocks, hf]
  apply part2
  rw [hb]
  rfl

theorem claim_C8_witness :
    hasToolCallTags c8NoMarkup = false ∧ parseToolCallTags c8NoMarkup = none ∧
    (enumFrom 0 (toolBlocks (c8Garbage.length + 1) c8Garbage)).filterMap
        (fun p => fallbackCallOfBlock p.1 p.2) = [] ∧
    parseToolCallTags c8Garbage = none :=
  ⟨by decide, claim_C8.1 c8NoMarkup (by decide), by decide,
    claim_C8.2.1 c8Garbage (by decide)⟩

/-- C8 (refutation of the original): `"no markup here"` has no block at
all, `"<tool_call>not valid json</tool_call>"` has exactly one block that
parses into nothing — and the extractor returns the same value (`none`)
for both, so its result alone cannot tell the two cases apart. -/
theorem claim_C8_counterexample :
    hasToolCallTags c8NoMarkup = false ∧
    hasToolCallTags c8Garbage = true ∧
    (toolBlocks (c8Garbage.length + 1) c8Garbage).length = 1 ∧
    parseToolCallTags c8NoMarkup = parseToolCallTags c8Garbage := by
  refine ⟨by decide, by decide, by decide, by decide⟩

/-- C9: every tool dispatch — `handleToolCalls` from the round loops, and
the pipeline's forced call whether it succeeds or fails — appends to the
transcript exactly one assistant message carrying the dispatched calls
followed by one tool-role message per call in call order, and each tool
message's `tool_call_id` is the id of its call in that assistant message
(on a successful truthy pipeline dispatch the evidence splice additionally
lands before the trailing user message; on a failed or empty dispatch the
pair is simply appended at the tail). -/
theorem claim_C9 :
    (∀ (o : Oracle) (stream : Bool) (tcs : List ToolCall) (es : ES),
      (handleToolCalls o stream tcs es).messages =
        es.messages ++ ({ role := .assistant, content := [], tool_calls := some tcs } :
          ChatMessage) :: tcs.map (fun tc => toolMsgOf tc (o.exec tc))) ∧
    (∀ (tc : ToolCall) (r : ToolResult),
      (toolMsgOf tc r).role = .tool ∧ (toolMsgOf tc r).tool_call_id = some tc.id) ∧
    (∀ (o : Oracle) (a : Agent) (stream : Bool) (um : Str) (es : ES) (em : Str),
      getEmbeddingModel o = some em →
      "semantic_search_messages".toList ∈ o.toolNames →
      (o.exec (pipelineForced o a um)).success = true →
      jsTruthy (o.exec (pipelineForced o a um)).result = true →
      ∀ (ms : List ChatMessage) (u : ChatMessage), es.messages = ms ++ [u] → u.role = .user →
      (runSemanticPipelineM o a stream um es).2.messages =
        ms ++ ({ role := .system
               , content := mkEvidenceBlock (pipelinePlan o um).query (pipelineTk o um)
                   (pipelineCl o a um) (o.exec (pipelineForced o a um)).result } :
            ChatMessage) ::
          u :: ({ role := .assistant, content := []
                , tool_calls := some [pipelineForced o a um] } : ChatMessage) ::
          [toolMsgOf (pipelineForced o a um) (o.exec (pipelineForced o a um))]) ∧
    (∀ (o : Oracle) (a : Agent) (stream : Bool) (um : Str) (es : ES) (em : Str),
      getEmbeddingModel o = some em →
      "semantic_search_messages".toList ∈ o.toolNames →
      ¬((o.exec (pipelineForced o a um)).success = true ∧
        jsTruthy (o.exec (pipelineForced o a um)).result = true) →
      (runSemanticPipelineM o a stream um es).2.messages =
        es.messages ++ ({ role := .assistant, content := []
                        , tool_calls := some [pipelineForced o a um] } : ChatMessage) ::
          [toolMsgOf (pipelineForced o a um) (o.exec (pipelineForced o a um))]) :=
  ⟨fun o stream tcs es => (handleToolCalls_spec o stream tcs es).1,
   fun _ _ => ⟨rfl, rfl⟩,
   fun o a stream um es em hm htool hsucc htruthy ms u hmsgs hu =>
     (pipelineShape o a stream um es em hm htool hsucc htruthy ms u hmsgs hu).2,
   fun o a stream um es em hm htool hfail =>
     (pipelineShapeFail o a stream um es em hm htool hfail).2⟩

theorem claim_C9_witness :
    (handleToolCalls pipe2Oracle false [c7ToolCall] es9W).messages =
      es9W.messages ++ ({ role := .assistant, content := [], tool_calls := some [c7ToolCall] } :
        ChatMessage) :: [c7ToolCall].map (fun tc => toolMsgOf tc (pipe2Oracle.exec tc)) ∧
    (toolMsgOf c7ToolCall (pipe2Oracle.exec c7ToolCall)).tool_call_id = some c7ToolCall.id ∧
    (runSemanticPipelineM pipe2Oracle agDefault false "q".toList es9W).2.messages =
      [sysMsgW] ++ pipe2EvMsgW :: userMsgW :: pipe2AsstMsgW ::
        [toolMsgOf pipe2ForcedW (pipe2Oracle.exec pipe2ForcedW)] ∧
    (runSemanticPipelineM pipeFailOracle agDefault false "q".toList es9W).2.messages =
      es9W.messages ++ pipeFailAsstW ::
        [toolMsgOf pipeFailForcedW (pipeFailOracle.exec pipeFailForcedW)] :=
  ⟨claim_C9.1 pipe2Oracle false [c7ToolCall] es9W,
   (claim_C9.2.1 c7ToolCall (pipe2Oracle.exec c7ToolCall)).2,
   claim_C9.2.2.1 pipe2Oracle agDefault false "q".toList es9W "bge".toList rfl (by decide)
     rfl rfl [sysMsgW] userMsgW rfl rfl,
   claim_C9.2.2.2 pipeFailOracle agDefault false "q".toList es9W "bge".toList rfl (by decide)
     (by decide)⟩

/-- C10: when no embedding model is configured and the legacy auto search
runs instead of the pipeline, the search itself changes no transcript
message and none of `toolsUsed`, `toolRounds`, `totalUsage`; the sole
transcript effect — taken by the caller on successful retrieval with a
non-empty `results` array — is one system-role evidence message inserted
immediately before the final user message. -/
theorem claim_C10 (o : Oracle) (a : Agent) (stream : Bool) (um : Str)
    (hemb : getEmbeddingModel o = none) (hauto : shouldAutoSemanticSearch um = true) :
    (∀ es : ES, (runAutoSemanticSearchM o um es).2.messages = es.messages ∧
      (runAutoSemanticSearchM o um es).2.toolsUsed = es.toolsUsed ∧
      (runAutoSemanticSearchM o um es).2.toolRounds = es.toolRounds ∧
      (runAutoSemanticSearchM o um es).2.totalUsage = es.totalUsage) ∧
    (preLoop o a stream um).toolsUsed = [] ∧
    (preLoop o a stream um).toolRounds = 0 ∧
    (preLoop o a stream um).totalUsage = a.totalUsage ∧
    (∀ ev, (runAutoSemanticSearchM o um (initES a um)).1 = some ev →
      (preLoop o a stream um).messages =
        (({ role := .system, content := a.systemPrompt } : ChatMessage) ::
            a.historyMessages) ++
          ({ role := .system, content := ev } : ChatMessage) ::
          [{ role := .user, content := um }]) ∧
    ((runAutoSemanticSearchM o um (initES a um)).1 = none →
      (preLoop o a stream um).messages = (initES a um).messages) := by
  obtain ⟨p1, p2, p3, p4, p5⟩ := preLoopAuto o a stream um hemb hauto
  refine ⟨?_, p1, p2, p3, p4, p5⟩
  intro es
  obtain ⟨a1, a2, a3, a4, a5, a6, a7, a8⟩ := auto_frame o um es
  exact ⟨a3, a4, a1, a5⟩

theorem claim_C10_witness :
    getEmbeddingModel autoOracle = none ∧
    shouldAutoSemanticSearch c10Msg = true ∧
    (preLoop autoOracle agDefault false c10Msg).toolsUsed = [] ∧
    (preLoop autoOracle agDefault false c10Msg).toolRounds = 0 ∧
    (preLoop autoOracle agDefault false c10Msg).totalUsage = agDefault.totalUsage ∧
    (preLoop autoOracle agDefault false c10Msg).messages =
      (({ role := .system, content := agDefault.systemPrompt } : ChatMessage) ::
          agDefault.historyMessages) ++
        ({ role := .system
         , content := (runAutoSemanticSearchM autoOracle c10Msg
             (initES agDefault c10Msg)).1.getD [] } : ChatMessage) ::
        [{ role := .user, content := c10Msg }] :=
  ⟨rfl, by decide,
   (claim_C10 autoOracle agDefault false c10Msg rfl (by decide)).2.1,
   (claim_C10 autoOracle agDefault false c10Msg rfl (by decide)).2.2.1,
   (claim_C10 autoOracle agDefault false c10Msg rfl (by decide)).2.2.2.1,
   (claim_C10 autoOracle agDefault false c10Msg rfl (by decide)).2.2.2.2.1
     ((runAutoSemanticSearchM autoOracle c10Msg (initES agDefault c10Msg)).1.getD []) rfl⟩
